import Mathlib

/-!
Verification of the UDPRelay group-relay server (src/Python/server.py).

The server's state machine is shallowly embedded: Python dicts become
association lists, Python sets become finite sets, timestamps become
rationals, and the raw bytes of a UDP packet become lists of characters
(UTF-8 decoding with errors ignored is the identity on the ASCII range,
which is the only range the protocol uses).  Each handler is a pure
function from a state and a packet to a new state together with the list
of datagrams the server sends in response.
-/

namespace UDPRelay

/-- One byte of a UDP datagram, modelled as a character (ASCII-faithful). -/
abbrev Bytes := List Char

/-- A network address: host and port, as in the Python `(str, int)` tuple. -/
abbrev Addr := String × Nat

/-- A group identifier, stored as the list of its characters. -/
abbrev Gid := List Char

/-- Timestamps from the monotonic clock. -/
abbrev Time := ℚ

/-- Python `str.isspace` characters relevant to `str.strip()` (ASCII range). -/
def isPySpace (c : Char) : Bool := c.toNat ∈ [9, 10, 11, 12, 13, 32]

/-- Python `str.upper` on one ASCII character. -/
def pyUpperChar (c : Char) : Char :=
  if 97 ≤ c.toNat ∧ c.toNat ≤ 122 then Char.ofNat (c.toNat - 32) else c

/-- Python `str.strip()`: drop leading and trailing whitespace. -/
def pyStrip (s : List Char) : List Char :=
  ((s.dropWhile isPySpace).reverse.dropWhile isPySpace).reverse

/-- Python `str.upper()` (ASCII-faithful). -/
def pyUpper (s : List Char) : List Char := s.map pyUpperChar

/-- The normalization `arg_bytes.decode('utf-8', 'ignore').strip().upper()`
applied to a JOIN/LEAVE argument in `handle_join` / `handle_leave`. -/
def normGid (arg : Bytes) : Gid := pyUpper (pyStrip arg)

/-- The alphabet of `random_group_id`: uppercase letters without `O`,
digits without `0`. -/
def idAlphabet : List Char := "ABCDEFGHIJKLMNPQRSTUVWXYZ123456789".toList

/-- An identifier the ID allocator `random_group_id` can produce:
eight characters drawn from `idAlphabet`. -/
def validGid (g : Gid) : Prop := g.length = 8 ∧ ∀ c ∈ g, c ∈ idAlphabet

instance (g : Gid) : Decidable (validGid g) := by
  unfold validGid; infer_instance

/-! ### Association lists, the embedding of Python dicts -/

/-- Lookup in an association list (Python `d.get(k)` / `d[k]`). -/
def lookupA {α β : Type} [DecidableEq α] : List (α × β) → α → Option β
  | [], _ => none
  | (k, v) :: rest, a => if k = a then some v else lookupA rest a

/-- Remove a key (Python `d.pop(k, None)`). -/
def eraseA {α β : Type} [DecidableEq α] (m : List (α × β)) (k : α) : List (α × β) :=
  m.filter (fun p => p.1 ≠ k)

/-- Set a key to a value (Python `d[k] = v`). -/
def insertA {α β : Type} [DecidableEq α] (m : List (α × β)) (k : α) (v : β) : List (α × β) :=
  (k, v) :: eraseA m k

/-- The keys of an association list. -/
def keysA {α β : Type} (m : List (α × β)) : List α := m.map Prod.fst

/-- Keys occur at most once. -/
def NodupKeys {α β : Type} (m : List (α × β)) : Prop := (keysA m).Nodup

instance {α β : Type} [DecidableEq α] [DecidableEq β] (m : List (α × β)) :
    Decidable (NodupKeys m) := by
  unfold NodupKeys; infer_instance

section AssocLemmas

variable {α β : Type} [DecidableEq α] {m : List (α × β)} {k a : α} {v : β}

@[simp] theorem lookupA_nil : lookupA ([] : List (α × β)) a = none := rfl

theorem lookupA_cons {p : α × β} :
    lookupA (p :: m) a = if p.1 = a then some p.2 else lookupA m a := rfl

@[simp] theorem mem_eraseA {p : α × β} : p ∈ eraseA m k ↔ p ∈ m ∧ p.1 ≠ k := by
  simp [eraseA]

@[simp] theorem lookupA_eraseA :
    lookupA (eraseA m k) a = if k = a then none else lookupA m a := by
  induction m with
  | nil => simp [eraseA]
  | cons p rest ih =>
      by_cases hpk : p.1 = k
      · have h1 : eraseA (p :: rest) k = eraseA rest k := by
          simp [eraseA, List.filter_cons, hpk]
        rw [h1, ih, lookupA_cons]
        by_cases hka : k = a
        · simp [hka]
        · have hpa : p.1 ≠ a := fun h => hka (by rw [← hpk, h])
          simp [hka, hpa]
      · have h1 : eraseA (p :: rest) k = p :: eraseA rest k := by
          simp [eraseA, List.filter_cons, hpk]
        rw [h1, lookupA_cons, lookupA_cons, ih]
        by_cases hpa : p.1 = a
        · have hka : k ≠ a := fun h => hpk (by rw [hpa, h])
          simp [hpa, hka]
        · simp [hpa]

@[simp] theorem lookupA_insertA :
    lookupA (insertA m k v) a = if k = a then some v else lookupA m a := by
  by_cases h : k = a <;> simp [insertA, lookupA_cons, h]

theorem mem_insertA {p : α × β} :
    p ∈ insertA m k v ↔ p = (k, v) ∨ (p ∈ m ∧ p.1 ≠ k) := by
  simp [insertA]

theorem lookupA_mem (h : lookupA m a = some v) : (a, v) ∈ m := by
  induction m with
  | nil => simp [lookupA] at h
  | cons p rest ih =>
      rw [lookupA_cons] at h
      by_cases hpa : p.1 = a
      · rw [if_pos hpa] at h
        have hv : p.2 = v := by injection h
        have hp : (a, v) = p := by rw [← hpa, ← hv]
        rw [hp]
        exact List.mem_cons_self p rest
      · rw [if_neg hpa] at h
        exact List.mem_cons_of_mem _ (ih h)

theorem lookupA_eq_none_iff : lookupA m a = none ↔ ∀ v, (a, v) ∉ m := by
  induction m with
  | nil => simp
  | cons p rest ih =>
      rw [lookupA_cons]
      by_cases hpa : p.1 = a
      · rw [if_pos hpa]
        constructor
        · intro h; cases h
        · intro h
          exfalso
          apply h p.2
          have hmem : (a, p.2) = p := by rw [← hpa]
          rw [hmem]
          exact List.mem_cons_self p rest
      · rw [if_neg hpa, ih]
        constructor
        · intro h v hv
          rcases List.mem_cons.mp hv with h1 | h1
          · exact absurd (by rw [← h1] : p.1 = a).symm (fun hh => hpa hh.symm)
          · exact h v h1
        · intro h v hv
          exact h v (List.mem_cons_of_mem _ hv)

theorem mem_lookupA (hnd : NodupKeys m) (h : (a, v) ∈ m) : lookupA m a = some v := by
  induction m with
  | nil => simp at h
  | cons p rest ih =>
      have hnd2 : p.1 ∉ keysA rest ∧ (keysA rest).Nodup := by
        simpa [NodupKeys, keysA] using hnd
      rw [lookupA_cons]
      rcases List.mem_cons.mp h with h1 | h1
      · rw [← h1]; simp
      · have hpa : p.1 ≠ a := by
          intro heq
          apply hnd2.1
          have hx : (p.1, v) ∈ rest := by rw [heq]; exact h1
          simp only [keysA, List.mem_map]
          exact ⟨(p.1, v), hx, rfl⟩
        rw [if_neg hpa]
        exact ih hnd2.2 h1

theorem nodupKeys_eraseA (h : NodupKeys m) : NodupKeys (eraseA m k) := by
  simp only [NodupKeys, keysA, eraseA] at h ⊢
  exact (List.Sublist.map Prod.fst (List.filter_sublist m)).nodup h

theorem nodupKeys_insertA (h : NodupKeys m) : NodupKeys (insertA m k v) := by
  have he := nodupKeys_eraseA (k := k) h
  simp only [NodupKeys, keysA, insertA, List.map_cons, List.nodup_cons]
  refine ⟨?_, he⟩
  intro hk
  rcases List.mem_map.mp hk with ⟨p, hp, hpk⟩
  exact (mem_eraseA.mp hp).2 hpk

theorem nodupKeys_filter {q : α × β → Bool} (h : NodupKeys m) :
    NodupKeys (m.filter q) := by
  simp only [NodupKeys, keysA] at h ⊢
  exact (List.Sublist.map Prod.fst (List.filter_sublist m)).nodup h

theorem lookupA_filter_key {q : α → Bool} :
    lookupA (m.filter (fun p => q p.1)) a = if q a then lookupA m a else none := by
  induction m with
  | nil => simp
  | cons p rest ih =>
      by_cases hq : q p.1
      · by_cases hpa : p.1 = a
        · subst hpa; simp [List.filter_cons, hq, lookupA_cons]
        · simp [List.filter_cons, hq, lookupA_cons, hpa, ih]
      · by_cases hpa : p.1 = a
        · subst hpa
          simp [List.filter_cons, hq, lookupA_cons, ih]
        · simp [List.filter_cons, hq, lookupA_cons, hpa, ih]

theorem lookupA_eraseKeys {L : List α} :
    lookupA (m.filter (fun p => p.1 ∉ L)) a =
      if a ∈ L then none else lookupA m a := by
  induction m with
  | nil => simp
  | cons p rest ih =>
      by_cases hpL : p.1 ∈ L
      · have h1 : (p :: rest).filter (fun p => decide (p.1 ∉ L)) =
            rest.filter (fun p => decide (p.1 ∉ L)) := by
          simp [List.filter_cons, hpL]
        rw [h1, ih]
        by_cases haL : a ∈ L
        · simp [haL]
        · have hpa : p.1 ≠ a := fun h => haL (h ▸ hpL)
          simp [haL, lookupA_cons, hpa]
      · have h1 : (p :: rest).filter (fun p => decide (p.1 ∉ L)) =
            p :: rest.filter (fun p => decide (p.1 ∉ L)) := by
          simp [List.filter_cons, hpL]
        rw [h1, lookupA_cons, lookupA_cons, ih]
        by_cases hpa : p.1 = a
        · have haL : a ∉ L := by
            rw [← hpa]
            exact hpL
          simp [hpa, haL]
        · simp [hpa]

end AssocLemmas

/-- Remove a batch of keys (Python `for k in L: d.pop(k, None)`). -/
def eraseKeys {α β : Type} [DecidableEq α] (m : List (α × β)) (L : List α) :
    List (α × β) :=
  m.filter (fun p => p.1 ∉ L)

section AssocLemmas2

variable {α β : Type} [DecidableEq α] {m : List (α × β)} {a : α}

theorem lookupA_eraseKeys2 {L : List α} :
    lookupA (eraseKeys m L) a = if a ∈ L then none else lookupA m a :=
  lookupA_eraseKeys

theorem mem_eraseKeys {L : List α} {p : α × β} :
    p ∈ eraseKeys m L ↔ p ∈ m ∧ p.1 ∉ L := by
  simp [eraseKeys]

theorem nodupKeys_eraseKeys {L : List α} (h : NodupKeys m) :
    NodupKeys (eraseKeys m L) :=
  nodupKeys_filter h

end AssocLemmas2

section AssocLemmas

variable {α β : Type} [DecidableEq α] {m : List (α × β)} {k a : α} {v : β}

theorem mem_keysA {m : List (α × β)} : a ∈ keysA m ↔ ∃ v, (a, v) ∈ m := by
  simp only [keysA, List.mem_map]
  constructor
  · rintro ⟨⟨k, v⟩, hm, rfl⟩; exact ⟨v, hm⟩
  · rintro ⟨v, hv⟩; exact ⟨(a, v), hv, rfl⟩

theorem lookupA_isSome_iff {m : List (α × β)} :
    (lookupA m a).isSome ↔ a ∈ keysA m := by
  rcases h : lookupA m a with _ | v
  · simp only [Option.isSome_none, Bool.false_eq_true, false_iff]
    intro hk
    rcases mem_keysA.mp hk with ⟨v, hv⟩
    exact absurd h (by simp [lookupA_eq_none_iff]; exact ⟨v, hv⟩)
  · simp only [Option.isSome_some, true_iff]
    exact mem_keysA.mpr ⟨v, lookupA_mem h⟩

end AssocLemmas

/-! ### Character normalization lemmas -/

theorem char_toNat_ofNat {n : Nat} (h : n.isValidChar) : (Char.ofNat n).toNat = n := by
  simp [Char.ofNat, h, Char.toNat, Char.ofNatAux, UInt32.toNat, UInt32.ofNatCore]

theorem pyUpperChar_toNat_of_lower {c : Char} (h1 : 97 ≤ c.toNat) (h2 : c.toNat ≤ 122) :
    (pyUpperChar c).toNat = c.toNat - 32 := by
  unfold pyUpperChar
  rw [if_pos ⟨h1, h2⟩]
  exact char_toNat_ofNat (Or.inl (by omega))

theorem pyUpperChar_eq_of_not_lower {c : Char} (h : ¬(97 ≤ c.toNat ∧ c.toNat ≤ 122)) :
    pyUpperChar c = c := by
  unfold pyUpperChar
  rw [if_neg h]

theorem pyUpperChar_idem (c : Char) : pyUpperChar (pyUpperChar c) = pyUpperChar c := by
  by_cases h : 97 ≤ c.toNat ∧ c.toNat ≤ 122
  · apply pyUpperChar_eq_of_not_lower
    rw [pyUpperChar_toNat_of_lower h.1 h.2]
    omega
  · rw [pyUpperChar_eq_of_not_lower h, pyUpperChar_eq_of_not_lower h]

theorem isPySpace_pyUpperChar (c : Char) : isPySpace (pyUpperChar c) = isPySpace c := by
  by_cases h : 97 ≤ c.toNat ∧ c.toNat ≤ 122
  · have h1 := pyUpperChar_toNat_of_lower h.1 h.2
    have hA : isPySpace (pyUpperChar c) = false := by
      unfold isPySpace
      rw [h1]
      simp only [decide_eq_false_iff_not, List.mem_cons, List.not_mem_nil, or_false]
      omega
    have hB : isPySpace c = false := by
      unfold isPySpace
      simp only [decide_eq_false_iff_not, List.mem_cons, List.not_mem_nil, or_false]
      omega
    rw [hA, hB]
  · rw [pyUpperChar_eq_of_not_lower h]

theorem dropWhile_map_pyUpper (s : List Char) :
    (s.map pyUpperChar).dropWhile isPySpace = (s.dropWhile isPySpace).map pyUpperChar := by
  induction s with
  | nil => simp
  | cons c rest ih =>
      by_cases h : isPySpace c
      · simp [List.dropWhile_cons, isPySpace_pyUpperChar, h, ih]
      · simp [List.dropWhile_cons, isPySpace_pyUpperChar, h]

theorem pyStrip_pyUpper (s : List Char) : pyStrip (pyUpper s) = pyUpper (pyStrip s) := by
  unfold pyStrip pyUpper
  rw [dropWhile_map_pyUpper, ← List.map_reverse, dropWhile_map_pyUpper, ← List.map_reverse]

theorem pyUpper_idem (s : List Char) : pyUpper (pyUpper s) = pyUpper s := by
  unfold pyUpper
  rw [List.map_map]
  exact List.map_congr_left fun c _ => pyUpperChar_idem c

/-- The JOIN/LEAVE argument normalization is invariant under first
upper-casing the bytes of the argument. -/
theorem normGid_pyUpper (arg : Bytes) : normGid (pyUpper arg) = normGid arg := by
  unfold normGid
  rw [pyStrip_pyUpper, pyUpper_idem]

theorem pyUpperChar_fixed_of_alphabet : ∀ c ∈ idAlphabet, pyUpperChar c = c := by decide

theorem validGid_pyUpper_fixed {g : Gid} (h : validGid g) : pyUpper g = g := by
  unfold pyUpper
  have h1 : List.map pyUpperChar g = List.map id g :=
    List.map_congr_left fun c hc => pyUpperChar_fixed_of_alphabet c (h.2 c hc)
  rw [h1, List.map_id]

theorem validGid_ne_nil {g : Gid} (h : validGid g) : g ≠ [] := by
  intro hnil
  rw [hnil] at h
  exact absurd h.1 (by simp)

/-! ### Wire protocol: commands, parsing, replies

Command tokens of server.py (CASE-SENSITIVE, ALL CAPS).  -/

def CREATE_CMD : Bytes := "CREATE".toList

def JOIN_CMD : Bytes := "JOIN".toList

def LEAVE_CMD : Bytes := "LEAVE".toList

def PING_CMD : Bytes := "PING".toList

def WHO_CMD : Bytes := "WHO".toList

/-- Max command length for guards. -/
def MAX_CMD_LEN : Nat :=
  max CREATE_CMD.length (max JOIN_CMD.length (max LEAVE_CMD.length
    (max PING_CMD.length WHO_CMD.length)))

/-- The source constant MAX_CMD_WITH_PREFIX: one byte of command marker
plus the longest command token. -/
def MAX_CMD_WITH_MARK : Nat := 1 + MAX_CMD_LEN

/-- Hard cap for processed messages (MAX_PAYLOAD in server.py). -/
def MAX_PAYLOAD : Nat := 4096

/-- Extract command token (CASE-SENSITIVE, ALL CAPS) and remainder argument.
Returns (cmd_token_bytes, arg_bytes); if not a command, returns ([], []). -/
def split_cmd_arg (packet : Bytes) : Bytes × Bytes :=
  if packet = [] ∨ packet.take 1 ≠ ['!'] then ([], [])
  else
    let head := packet.take (MAX_CMD_WITH_MARK + 1)
    match head.findIdx? (fun c => c = ' ') with
    | none => (packet.drop 1, [])
    | some sp => ((packet.drop 1).take (sp - 1), packet.drop (sp + 1))

/-- One outbound datagram of the server, in structured form: the `OK ...`,
`ERR <code> <msg>` and `PONG <seconds>` strings of server.py, plus `fwd`
for a payload forwarded byte-for-byte. -/
inductive Reply where
  | okCreated (gid : Gid)
  | okJoined (gid : Gid)
  | okLeft (gid : Gid)
  | okWho (gid : Gid) (count : Nat)
  | pong (heartbeat : Time)
  | err (code : String) (msg : Bytes)
  | fwd (data : Bytes)
  deriving DecidableEq

/-- An outbound datagram: destination address and content. -/
abbrev Msg := Addr × Reply

def ERR_BAD_CMD : String := "BAD_CMD"

def ERR_BAD_ARG : String := "BAD_ARG"

def ERR_NOT_IN_GROUP : String := "NOT_IN_GROUP"

def ERR_GROUP_FULL : String := "GROUP_FULL"

def ERR_CLIENT_LIMIT : String := "CLIENT_LIMIT"

def ERR_TOO_LARGE : String := "TOO_LARGE"

/-! ### Server configuration and state -/

/-- The configuration surface of `UDPGroupServer.__init__` (host/port and
the socket are carried by the event-loop embedding, not the state). -/
structure Config where
  bufsize : Nat := MAX_PAYLOAD
  empty_group_ttl_sec : Time := 300
  sweep_interval_sec : Time := 30
  suggested_heartbeat_sec : Time := 60
  max_group_size : Option Nat := some 128
  per_group_caps : List (Gid × Nat) := []
  max_groups_per_client : Nat := 3

/-- The mutable state of `UDPGroupServer`. -/
structure ServerState where
  groups : List (Gid × List Addr) := []
  group_creator : List (Gid × Addr) := []
  empty_since : List (Gid × Time) := []
  creator_active_groups : List (Addr × List Gid) := []
  client_group : List (Addr × Gid) := []
  last_seen : List (Addr × Time) := []
  deriving DecidableEq

/-- The state right after `__init__`: every registry empty. -/
def initState : ServerState := {}

/-- Python `set.add`: no effect when the element is present. -/
def setAdd {α : Type} [DecidableEq α] (s : List α) (x : α) : List α :=
  if x ∈ s then s else x :: s

/-- Python `set.discard`: remove the element when present. -/
def setDiscard {α : Type} [DecidableEq α] (s : List α) (x : α) : List α :=
  s.filter (fun y => y ≠ x)

/-- Return per-group cap if defined, else global cap. -/
def cap_for (cfg : Config) (gid : Gid) : Option Nat :=
  match lookupA cfg.per_group_caps gid with
  | some c => some c
  | none => cfg.max_group_size

/-- Mark group as empty if no peers left (for TTL cleanup). -/
def mark_group_empty_if_needed (st : ServerState) (gid : Gid) (now : Time) : ServerState :=
  match lookupA st.groups gid with
  | some peers =>
      if peers = [] then { st with empty_since := insertA st.empty_since gid now }
      else { st with empty_since := eraseA st.empty_since gid }
  | none => { st with empty_since := eraseA st.empty_since gid }

/-- Remove group and update creator tracking. -/
def remove_group (st : ServerState) (gid : Gid) : ServerState :=
  let st1 := { st with
    groups := eraseA st.groups gid,
    empty_since := eraseA st.empty_since gid,
    group_creator := eraseA st.group_creator gid }
  match lookupA st.group_creator gid with
  | none => st1
  | some creator =>
      match lookupA st.creator_active_groups creator with
      | none => st1
      | some s =>
          let s' := setDiscard s gid
          if s' = [] then
            { st1 with creator_active_groups := eraseA st.creator_active_groups creator }
          else
            { st1 with creator_active_groups := insertA st.creator_active_groups creator s' }

/-! ### Packet handlers -/

/-- Forward payload to all peers in the sender's group
(`UDPGroupServer.handle_payload`).  `fails` tells which destination a
`sendto` raises `OSError` for; those peers are pruned. -/
def handle_payload (st : ServerState) (packet : Bytes) (addr : Addr) (now : Time)
    (fails : Addr → Bool) : ServerState × List Msg :=
  if MAX_PAYLOAD < packet.length then
    (st, [(addr, .err ERR_TOO_LARGE "PayloadTooLarge".toList)])
  else
    match lookupA st.client_group addr with
    | none =>
        ({ st with client_group := eraseA st.client_group addr },
          [(addr, .err ERR_NOT_IN_GROUP "JoinFirstUseJOIN".toList)])
    | some gid =>
        if gid = [] ∨ lookupA st.groups gid = none then
          ({ st with client_group := eraseA st.client_group addr },
            [(addr, .err ERR_NOT_IN_GROUP "JoinFirstUseJOIN".toList)])
        else
          let peers := (lookupA st.groups gid).getD []
          let st1 := { st with last_seen := insertA st.last_seen addr now }
          let recipients := peers.filter (fun p => p ≠ addr ∧ fails p = false)
          let to_prune := peers.filter (fun p => p ≠ addr ∧ fails p = true)
          let msgs := recipients.map (fun p => (p, Reply.fwd packet))
          let st2 := { st1 with
            groups := insertA st1.groups gid (peers.filter (fun p => p ∉ to_prune)),
            client_group := eraseKeys st1.client_group to_prune,
            last_seen := eraseKeys st1.last_seen to_prune }
          (mark_group_empty_if_needed st2 gid now, msgs)

/-- Create a new group, respecting per-creator group caps
(`UDPGroupServer.handle_create`).  The group identifier `gid` stands for
the value of the `random_group_id` retry loop; its freshness
(`gid ∉ keysA st.groups`) and well-formedness are guaranteed by that loop
and are supplied as side conditions of the `Reachable` relation. -/
def handle_create (cfg : Config) (st : ServerState) (gid : Gid) (addr : Addr)
    (now : Time) : ServerState × List Msg :=
  let active_set := (lookupA st.creator_active_groups addr).getD []
  let used := active_set.length
  if cfg.max_groups_per_client ≤ used then
    (st, [(addr, .err ERR_CLIENT_LIMIT
      (toString used ++ "/" ++ toString cfg.max_groups_per_client).toList)])
  else
    ({ st with
        groups := insertA st.groups gid [],
        group_creator := insertA st.group_creator gid addr,
        empty_since := insertA st.empty_since gid now,
        creator_active_groups :=
          insertA st.creator_active_groups addr (setAdd active_set gid) },
      [(addr, .okCreated gid)])

/-- Join an existing group; group IDs compared case-insensitively
(`UDPGroupServer.handle_join`). -/
def handle_join (cfg : Config) (st : ServerState) (arg : Bytes) (addr : Addr)
    (now : Time) : ServerState × List Msg :=
  let gid := normGid arg
  if gid = [] then
    (st, [(addr, .err ERR_BAD_ARG "Usage:!JOIN <GROUPID>".toList)])
  else
    match lookupA st.groups gid with
    | none => (st, [(addr, .err ERR_BAD_ARG "NoSuchGroup".toList)])
    | some members =>
        let current := lookupA st.client_group addr
        if current = some gid then
          ({ st with last_seen := insertA st.last_seen addr now },
            [(addr, .okJoined gid)])
        else
          let capFull := match cap_for cfg gid with
            | some cap => decide (cap ≤ members.length)
            | none => false
          if capFull then (st, [(addr, .err ERR_GROUP_FULL gid)])
          else
            let st1 := match current with
              | some cur =>
                  if cur ≠ [] then
                    match lookupA st.groups cur with
                    | some m =>
                        mark_group_empty_if_needed
                          { st with groups := insertA st.groups cur (setDiscard m addr) }
                          cur now
                    | none => st
                  else st
              | none => st
            let st2 := { st1 with
              client_group := insertA st1.client_group addr gid,
              groups := insertA st1.groups gid
                (setAdd ((lookupA st1.groups gid).getD []) addr),
              last_seen := insertA st1.last_seen addr now }
            ({ st2 with empty_since := eraseA st2.empty_since gid },
              [(addr, .okJoined gid)])

/-- Leave a specific group; requires `!LEAVE <id>`
(`UDPGroupServer.handle_leave`). -/
def handle_leave (st : ServerState) (arg : Bytes) (addr : Addr) (now : Time) :
    ServerState × List Msg :=
  let gid := normGid arg
  if gid = [] then
    (st, [(addr, .err ERR_BAD_ARG "Usage:!LEAVE <GROUPID>".toList)])
  else
    match lookupA st.client_group addr with
    | none => (st, [(addr, .err ERR_NOT_IN_GROUP "NotInThatGroup".toList)])
    | some cur =>
        if cur = [] ∨ pyUpper cur ≠ gid then
          (st, [(addr, .err ERR_NOT_IN_GROUP "NotInThatGroup".toList)])
        else
          let st1 := { st with client_group := eraseA st.client_group addr }
          let st2 := match lookupA st1.groups gid with
            | some m =>
                mark_group_empty_if_needed
                  { st1 with groups := insertA st1.groups gid (setDiscard m addr) } gid now
            | none => st1
          ({ st2 with last_seen := eraseA st2.last_seen addr },
            [(addr, .okLeft gid)])

/-- Refresh last_seen and reply with heartbeat hint
(`UDPGroupServer.handle_ping`). -/
def handle_ping (cfg : Config) (st : ServerState) (addr : Addr) (now : Time) :
    ServerState × List Msg :=
  match lookupA st.client_group addr with
  | none =>
      ({ st with client_group := eraseA st.client_group addr },
        [(addr, .err ERR_NOT_IN_GROUP "JoinFirstUseJOIN".toList)])
  | some gid =>
      if gid = [] ∨ lookupA st.groups gid = none then
        ({ st with client_group := eraseA st.client_group addr },
          [(addr, .err ERR_NOT_IN_GROUP "JoinFirstUseJOIN".toList)])
      else
        ({ st with last_seen := insertA st.last_seen addr now },
          [(addr, .pong cfg.suggested_heartbeat_sec)])

/-- Return group ID and peer count for the caller's group
(`UDPGroupServer.handle_who`).  Note: the state is left untouched. -/
def handle_who (st : ServerState) (addr : Addr) : ServerState × List Msg :=
  match lookupA st.client_group addr with
  | none => (st, [(addr, .err ERR_NOT_IN_GROUP "JoinFirstUseJOIN".toList)])
  | some gid =>
      if gid = [] ∨ lookupA st.groups gid = none then
        (st, [(addr, .err ERR_NOT_IN_GROUP "JoinFirstUseJOIN".toList)])
      else
        (st, [(addr, .okWho gid ((lookupA st.groups gid).getD []).length)])

/-- Dispatch commands by token, with over-long guard
(`UDPGroupServer.handle_command`). -/
def handle_command (cfg : Config) (st : ServerState) (packet : Bytes) (addr : Addr)
    (now : Time) (freshGid : Gid) : ServerState × List Msg :=
  let parsed := split_cmd_arg packet
  let cmd := parsed.1
  let arg_bytes := parsed.2
  if cmd = [] then (st, [(addr, .err ERR_BAD_CMD "UnknownCommand".toList)])
  else if MAX_CMD_LEN < cmd.length then
    (st, [(addr, .err ERR_BAD_CMD "UnknownCommand".toList)])
  else if cmd = CREATE_CMD then handle_create cfg st freshGid addr now
  else if cmd = JOIN_CMD then handle_join cfg st arg_bytes addr now
  else if cmd = LEAVE_CMD then handle_leave st arg_bytes addr now
  else if cmd = PING_CMD then handle_ping cfg st addr now
  else if cmd = WHO_CMD then handle_who st addr
  else (st, [(addr, .err ERR_BAD_CMD "UnknownCommand".toList)])

/-- One readable-socket iteration of `UDPGroupServer.run`: receive (the
datagram is truncated to `bufsize + 1` bytes by `recvfrom`), drop empty
packets, apply the global oversize guard, then forward to the payload or
the command path. -/
def processPacket (cfg : Config) (st : ServerState) (data : Bytes) (addr : Addr)
    (now : Time) (freshGid : Gid) (fails : Addr → Bool) : ServerState × List Msg :=
  let packet := data.take (cfg.bufsize + 1)
  if packet = [] then (st, [])
  else if MAX_PAYLOAD < packet.length then
    (st, [(addr, .err ERR_TOO_LARGE "PayloadTooLarge".toList)])
  else if packet.take 1 ≠ ['!'] then handle_payload st packet addr now fails
  else handle_command cfg st packet addr now freshGid

/-! ### The sweeper -/

/-- One iteration of the inactive-client pass of `UDPGroupServer.sweep`,
processing one snapshot entry of `last_seen`. -/
def sweepStep1 (now cutoff : Time) (st : ServerState) (entry : Addr × Time) :
    ServerState :=
  if entry.2 < cutoff then
    let st1 := { st with
      client_group := eraseA st.client_group entry.1,
      last_seen := eraseA st.last_seen entry.1 }
    match lookupA st.client_group entry.1 with
    | some gid =>
        if gid ≠ [] then
          match lookupA st1.groups gid with
          | some m =>
              mark_group_empty_if_needed
                { st1 with groups := insertA st1.groups gid (setDiscard m entry.1) } gid now
          | none => st1
        else st1
    | none => st1
  else st

/-- One iteration of the long-empty-group pass of `UDPGroupServer.sweep`,
processing one snapshot entry of `empty_since`. -/
def sweepStep2 (cutoff : Time) (st : ServerState) (entry : Gid × Time) : ServerState :=
  if entry.2 < cutoff ∧ lookupA st.groups entry.1 = some ([] : List Addr) then
    remove_group st entry.1
  else st

/-- Cleanup inactive clients and long-empty groups (`UDPGroupServer.sweep`).
Both passes iterate over a snapshot of the respective registry, taken when
the pass starts, and use one consistent `now`. -/
def sweep (cfg : Config) (st : ServerState) (now : Time) : ServerState :=
  let cutoff_clients := now - 3 * cfg.suggested_heartbeat_sec
  let cutoff_groups := now - cfg.empty_group_ttl_sec
  let st1 := st.last_seen.foldl (sweepStep1 now cutoff_clients) st
  st1.empty_since.foldl (sweepStep2 cutoff_groups) st1

/-! ### Reachable states

A state is reachable when it arises from the initial state by any
sequence of processed packets and sweeps, with arbitrary clock readings.
For a packet event the group identifier that `random_group_id` would
allocate is existentially fixed up front; the retry loop of
`handle_create` guarantees it is well-formed and not a live group. -/

inductive Reachable (cfg : Config) : ServerState → Prop where
  | init : Reachable cfg initState
  | pkt {st : ServerState} {data : Bytes} {addr : Addr} {now : Time}
      {freshGid : Gid} {fails : Addr → Bool} :
      Reachable cfg st → validGid freshGid → freshGid ∉ keysA st.groups →
      Reachable cfg (processPacket cfg st data addr now freshGid fails).1
  | sweepRun {st : ServerState} {now : Time} :
      Reachable cfg st → Reachable cfg (sweep cfg st now)

/-! ### Set-operation lemmas -/

section SetLemmas

variable {α : Type} [DecidableEq α] {s : List α} {x y : α}

@[simp] theorem mem_setAdd : x ∈ setAdd s y ↔ x = y ∨ x ∈ s := by
  unfold setAdd
  by_cases h : y ∈ s
  · simp only [if_pos h]
    constructor
    · exact Or.inr
    · rintro (rfl | hx)
      · exact h
      · exact hx
  · simp [if_neg h]

@[simp] theorem mem_setDiscard : x ∈ setDiscard s y ↔ x ∈ s ∧ x ≠ y := by
  simp [setDiscard]

theorem nodup_setAdd (h : s.Nodup) : (setAdd s y).Nodup := by
  unfold setAdd
  by_cases hy : y ∈ s
  · simpa [hy]
  · simpa [hy]

theorem nodup_setDiscard (h : s.Nodup) : (setDiscard s y).Nodup :=
  List.Nodup.filter _ h

theorem length_setAdd_le : (setAdd s y).length ≤ s.length + 1 := by
  unfold setAdd
  by_cases hy : y ∈ s <;> simp [hy]

theorem length_setDiscard_le : (setDiscard s y).length ≤ s.length :=
  List.length_filter_le _ s

end SetLemmas

/-! ### Field-level facts about the state transformers -/

theorem mark_groups (st : ServerState) (gid : Gid) (now : Time) :
    (mark_group_empty_if_needed st gid now).groups = st.groups := by
  unfold mark_group_empty_if_needed
  rcases lookupA st.groups gid with _ | peers
  · rfl
  · by_cases h : peers = [] <;> simp [h]

theorem mark_client_group (st : ServerState) (gid : Gid) (now : Time) :
    (mark_group_empty_if_needed st gid now).client_group = st.client_group := by
  unfold mark_group_empty_if_needed
  rcases lookupA st.groups gid with _ | peers
  · rfl
  · by_cases h : peers = [] <;> simp [h]

theorem mark_last_seen (st : ServerState) (gid : Gid) (now : Time) :
    (mark_group_empty_if_needed st gid now).last_seen = st.last_seen := by
  unfold mark_group_empty_if_needed
  rcases lookupA st.groups gid with _ | peers
  · rfl
  · by_cases h : peers = [] <;> simp [h]

theorem mark_group_creator (st : ServerState) (gid : Gid) (now : Time) :
    (mark_group_empty_if_needed st gid now).group_creator = st.group_creator := by
  unfold mark_group_empty_if_needed
  rcases lookupA st.groups gid with _ | peers
  · rfl
  · by_cases h : peers = [] <;> simp [h]

theorem mark_creator_active_groups (st : ServerState) (gid : Gid) (now : Time) :
    (mark_group_empty_if_needed st gid now).creator_active_groups =
      st.creator_active_groups := by
  unfold mark_group_empty_if_needed
  rcases lookupA st.groups gid with _ | peers
  · rfl
  · by_cases h : peers = [] <;> simp [h]

theorem mark_empty_since (st : ServerState) (gid : Gid) (now : Time) :
    (mark_group_empty_if_needed st gid now).empty_since =
      if lookupA st.groups gid = some [] then insertA st.empty_since gid now
      else eraseA st.empty_since gid := by
  unfold mark_group_empty_if_needed
  rcases h : lookupA st.groups gid with _ | peers
  · simp [h]
  · by_cases hp : peers = []
    · simp [h, hp]
    · simp [h, hp]

/-! ### The full inductive invariant

Each component is stated as a bounded quantification over the entries of
the association lists, so it is decidable on a concrete state. -/

/-- Keys occur at most once in each of the six registries. -/
def AllNodup (st : ServerState) : Prop :=
  NodupKeys st.groups ∧ NodupKeys st.group_creator ∧ NodupKeys st.empty_since ∧
  NodupKeys st.creator_active_groups ∧ NodupKeys st.client_group ∧
  NodupKeys st.last_seen

/-- Every live group identifier is a possible output of `random_group_id`. -/
def GroupsValid (st : ServerState) : Prop := ∀ q ∈ st.groups, validGid q.1

/-- Every stored client binding is a possible output of `random_group_id`. -/
def CGValid (st : ServerState) : Prop := ∀ p ∈ st.client_group, validGid p.2

/-- Every client binding points at a live group whose member set contains
the client. -/
def CGLive (st : ServerState) : Prop :=
  ∀ p ∈ st.client_group, p.1 ∈ (lookupA st.groups p.2).getD []

/-- Every member of a live group is bound to that group. -/
def MembersBound (st : ServerState) : Prop :=
  ∀ q ∈ st.groups, ∀ a ∈ q.2, lookupA st.client_group a = some q.1

/-- Member lists contain no duplicates (they embed Python sets). -/
def MembersNodup (st : ServerState) : Prop := ∀ q ∈ st.groups, q.2.Nodup

/-- No creator's quota set exceeds the configured cap. -/
def QuotaBound (cfg : Config) (st : ServerState) : Prop :=
  ∀ r ∈ st.creator_active_groups, r.2.length ≤ cfg.max_groups_per_client

/-- The count `n` respects the effective capacity of group `g` (no
constraint when the capacity is unlimited). -/
def capOkAt (cfg : Config) (g : Gid) (n : Nat) : Prop :=
  ∀ c, cap_for cfg g = some c → n ≤ c

instance (cfg : Config) (g : Gid) (n : Nat) : Decidable (capOkAt cfg g n) :=
  match h : cap_for cfg g with
  | none => isTrue (by intro c hc; rw [h] at hc; cases hc)
  | some c0 =>
      if hle : n ≤ c0 then
        isTrue (by intro c hc; rw [h] at hc; injection hc with e; rwa [← e])
      else
        isFalse (by intro hall; exact hle (hall c0 h))

/-- No live group's member count exceeds its effective capacity. -/
def CapBound (cfg : Config) (st : ServerState) : Prop :=
  ∀ q ∈ st.groups, capOkAt cfg q.1 q.2.length

/-- An empty-timer is only ever held by a live group that is empty. -/
def EmptySinceEmpty (st : ServerState) : Prop :=
  ∀ e ∈ st.empty_since, lookupA st.groups e.1 = some []

/-- An empty live group always holds an empty-timer. -/
def EmptyHasTimer (st : ServerState) : Prop :=
  ∀ q ∈ st.groups, q.2 = [] → (lookupA st.empty_since q.1).isSome

/-- The creator of each live group has that group in its quota set. -/
def CagComplete (st : ServerState) : Prop :=
  ∀ p ∈ st.group_creator, p.1 ∈ keysA st.groups →
    p.1 ∈ (lookupA st.creator_active_groups p.2).getD []

/-- The inductive invariant of the server, preserved by every processed
packet and by every sweep. -/
def Inv (cfg : Config) (st : ServerState) : Prop :=
  AllNodup st ∧ GroupsValid st ∧ CGValid st ∧ CGLive st ∧ MembersBound st ∧
  MembersNodup st ∧ QuotaBound cfg st ∧ CapBound cfg st ∧
  EmptySinceEmpty st ∧ EmptyHasTimer st ∧ CagComplete st

instance (st : ServerState) : Decidable (AllNodup st) := by
  unfold AllNodup; infer_instance

instance (st : ServerState) : Decidable (GroupsValid st) := by
  unfold GroupsValid; infer_instance

instance (st : ServerState) : Decidable (CGValid st) := by
  unfold CGValid; infer_instance

instance (st : ServerState) : Decidable (CGLive st) := by
  unfold CGLive; infer_instance

instance (st : ServerState) : Decidable (MembersBound st) := by
  unfold MembersBound; infer_instance

instance (st : ServerState) : Decidable (MembersNodup st) := by
  unfold MembersNodup; infer_instance

instance (cfg : Config) (st : ServerState) : Decidable (QuotaBound cfg st) := by
  unfold QuotaBound; infer_instance

instance (cfg : Config) (st : ServerState) : Decidable (CapBound cfg st) := by
  unfold CapBound; infer_instance

instance (st : ServerState) : Decidable (EmptySinceEmpty st) := by
  unfold EmptySinceEmpty; infer_instance

instance (st : ServerState) : Decidable (EmptyHasTimer st) := by
  unfold EmptyHasTimer; infer_instance

instance (st : ServerState) : Decidable (CagComplete st) := by
  unfold CagComplete; infer_instance

instance (cfg : Config) (st : ServerState) : Decidable (Inv cfg st) := by
  unfold Inv; infer_instance

theorem inv_init (cfg : Config) : Inv cfg initState := by
  unfold Inv AllNodup GroupsValid CGValid CGLive MembersBound MembersNodup
    QuotaBound CapBound EmptySinceEmpty EmptyHasTimer CagComplete NodupKeys keysA
    initState
  simp

theorem cgLive_elim {st : ServerState} (h : CGLive st) {a : Addr} {g : Gid}
    (hm : (a, g) ∈ st.client_group) :
    ∃ m, lookupA st.groups g = some m ∧ a ∈ m := by
  have h1 := h (a, g) hm
  rcases hl : lookupA st.groups g with _ | m
  · rw [hl] at h1
    simp at h1
  · rw [hl] at h1
    exact ⟨m, rfl, by simpa using h1⟩

theorem cagComplete_elim {st : ServerState} (h : CagComplete st) {g : Gid} {c : Addr}
    (hm : (g, c) ∈ st.group_creator) (hk : g ∈ keysA st.groups) :
    ∃ s, lookupA st.creator_active_groups c = some s ∧ g ∈ s := by
  have h1 := h (g, c) hm hk
  rcases hl : lookupA st.creator_active_groups c with _ | s
  · rw [hl] at h1
    simp at h1
  · rw [hl] at h1
    exact ⟨s, rfl, by simpa using h1⟩

/-- Invariant preservation along a fold. -/
theorem foldl_preserve {σ ε : Type} {P : σ → Prop} {f : σ → ε → σ}
    (hf : ∀ s e, P s → P (f s e)) (L : List ε) (s : σ) (hs : P s) :
    P (L.foldl f s) := by
  induction L generalizing s with
  | nil => exact hs
  | cons e rest ih => exact ih _ (hf _ _ hs)

theorem eraseA_lookup_none {α β : Type} [DecidableEq α] {m : List (α × β)} {k : α}
    (h : lookupA m k = none) : eraseA m k = m := by
  rw [lookupA_eq_none_iff] at h
  apply List.filter_eq_self.mpr
  intro p hp
  simp only [ne_eq, decide_eq_true_eq]
  intro hpk
  apply h p.2
  have hq : (k, p.2) = p := by rw [← hpk]
  rw [hq]
  exact hp

theorem mem_keysA_insertA {α β : Type} [DecidableEq α] {m : List (α × β)} {k x : α}
    {v : β} : x ∈ keysA (insertA m k v) ↔ x = k ∨ x ∈ keysA m := by
  constructor
  · intro hx
    rcases mem_keysA.mp hx with ⟨w, hw⟩
    rcases mem_insertA.mp hw with h1 | ⟨h1, _⟩
    · left; injection h1
    · right; exact mem_keysA.mpr ⟨w, h1⟩
  · rintro (rfl | hx)
    · exact mem_keysA.mpr ⟨v, by simp [mem_insertA]⟩
    · rcases mem_keysA.mp hx with ⟨w, hw⟩
      by_cases hxk : x = k
      · exact mem_keysA.mpr ⟨v, by simp [mem_insertA, hxk]⟩
      · exact mem_keysA.mpr ⟨w, mem_insertA.mpr (Or.inr ⟨hw, hxk⟩)⟩

/-- Under the invariant, a stored client binding is a nonempty identifier
of a live group containing the client: the stale-binding cleanup branches
of `handle_payload` / `handle_ping` only ever run for unbound senders. -/
theorem binding_live {cfg : Config} {st : ServerState} (hInv : Inv cfg st)
    {addr : Addr} {gid : Gid} (hcg : lookupA st.client_group addr = some gid) :
    gid ≠ [] ∧ ∃ m, lookupA st.groups gid = some m ∧ addr ∈ m := by
  obtain ⟨_, _, hCGV, hCGL, _⟩ := hInv
  have hmem := lookupA_mem hcg
  exact ⟨validGid_ne_nil (hCGV _ hmem), cgLive_elim hCGL hmem⟩

/-- `handle_who` never changes the state. -/
theorem handle_who_state (st : ServerState) (addr : Addr) :
    (handle_who st addr).1 = st := by
  unfold handle_who
  rcases lookupA st.client_group addr with _ | gid
  · rfl
  · by_cases h : gid = [] ∨ lookupA st.groups gid = none <;> simp [h]

theorem inv_handle_who (cfg : Config) (st : ServerState) (addr : Addr)
    (hInv : Inv cfg st) : Inv cfg (handle_who st addr).1 := by
  rw [handle_who_state]
  exact hInv

theorem inv_handle_ping (cfg : Config) (st : ServerState) (addr : Addr) (now : Time)
    (hInv : Inv cfg st) : Inv cfg (handle_ping cfg st addr now).1 := by
  unfold handle_ping
  rcases hcg : lookupA st.client_group addr with _ | gid
  · rw [eraseA_lookup_none hcg]
    exact hInv
  · obtain ⟨hne, m, hm, hmem⟩ := binding_live hInv hcg
    dsimp only
    rw [hm, if_neg (by simp [hne])]
    obtain ⟨⟨ndG, ndGC, ndES, ndCAG, ndCG, ndLS⟩, hGV, hCGV, hCGL, hMB, hMN,
      hQB, hCB, hESE, hEHT, hCC⟩ := hInv
    exact ⟨⟨ndG, ndGC, ndES, ndCAG, ndCG, nodupKeys_insertA ndLS⟩, hGV, hCGV,
      hCGL, hMB, hMN, hQB, hCB, hESE, hEHT, hCC⟩

theorem inv_handle_create (cfg : Config) (st : ServerState) (gid : Gid) (addr : Addr)
    (now : Time) (hInv : Inv cfg st) (hval : validGid gid)
    (hfresh : gid ∉ keysA st.groups) :
    Inv cfg (handle_create cfg st gid addr now).1 := by
  obtain ⟨⟨ndG, ndGC, ndES, ndCAG, ndCG, ndLS⟩, hGV, hCGV, hCGL, hMB, hMN,
    hQB, hCB, hESE, hEHT, hCC⟩ := hInv
  have hgnone : lookupA st.groups gid = none := by
    rw [lookupA_eq_none_iff]
    intro v hv
    exact hfresh (mem_keysA.mpr ⟨v, hv⟩)
  unfold handle_create
  by_cases hlim : cfg.max_groups_per_client ≤
      ((lookupA st.creator_active_groups addr).getD []).length
  · rw [if_pos hlim]
    exact ⟨⟨ndG, ndGC, ndES, ndCAG, ndCG, ndLS⟩, hGV, hCGV, hCGL, hMB, hMN,
      hQB, hCB, hESE, hEHT, hCC⟩
  · rw [if_neg hlim]
    refine ⟨⟨nodupKeys_insertA ndG, nodupKeys_insertA ndGC, nodupKeys_insertA ndES,
      nodupKeys_insertA ndCAG, ndCG, ndLS⟩, ?_, hCGV, ?_, ?_, ?_, ?_, ?_, ?_, ?_, ?_⟩
    · -- GroupsValid
      intro q hq
      rcases mem_insertA.mp hq with rfl | ⟨hq1, _⟩
      · exact hval
      · exact hGV _ hq1
    · -- CGLive
      intro p hp
      have hold := hCGL p hp
      have hpg : p.2 ≠ gid := by
        intro he
        rw [he, hgnone] at hold
        simp at hold
      have hlk : lookupA (insertA st.groups gid []) p.2 = lookupA st.groups p.2 := by
        rw [lookupA_insertA, if_neg (fun h => hpg h.symm)]
      show p.1 ∈ (lookupA (insertA st.groups gid []) p.2).getD []
      rw [hlk]
      exact hold
    · -- MembersBound
      intro q hq a ha
      rcases mem_insertA.mp hq with rfl | ⟨hq1, _⟩
      · simp at ha
      · exact hMB _ hq1 a ha
    · -- MembersNodup
      intro q hq
      rcases mem_insertA.mp hq with rfl | ⟨hq1, _⟩
      · exact List.nodup_nil
      · exact hMN _ hq1
    · -- QuotaBound
      intro r hr
      rcases mem_insertA.mp hr with rfl | ⟨hr1, _⟩
      · have h1 : (setAdd ((lookupA st.creator_active_groups addr).getD []) gid).length ≤
            ((lookupA st.creator_active_groups addr).getD []).length + 1 :=
          length_setAdd_le
        dsimp only
        omega
      · exact hQB _ hr1
    · -- CapBound
      intro q hq
      rcases mem_insertA.mp hq with rfl | ⟨hq1, _⟩
      · intro c _
        exact Nat.zero_le c
      · exact hCB _ hq1
    · -- EmptySinceEmpty
      intro e he
      rcases mem_insertA.mp he with rfl | ⟨he1, hne⟩
      · simp
      · show lookupA (insertA st.groups gid []) e.1 = some []
        rw [lookupA_insertA, if_neg (fun h => hne h.symm)]
        exact hESE _ he1
    · -- EmptyHasTimer
      intro q hq
      rcases mem_insertA.mp hq with rfl | ⟨hq1, hne⟩
      · intro _
        simp
      · intro hq2
        show (lookupA (insertA st.empty_since gid now) q.1).isSome
        rw [lookupA_insertA, if_neg (fun h => hne h.symm)]
        exact hEHT _ hq1 hq2
    · -- CagComplete
      intro p hp hk
      rcases mem_insertA.mp hp with rfl | ⟨hp1, hne⟩
      · simp [mem_setAdd]
      · have hk0 : p.1 ∈ keysA st.groups := by
          rcases mem_keysA_insertA.mp hk with h1 | h1
          · exact absurd h1 hne
          · exact h1
        have hold := hCC p hp1 hk0
        by_cases hpc : p.2 = addr
        · show p.1 ∈ (lookupA (insertA st.creator_active_groups addr
            (setAdd ((lookupA st.creator_active_groups addr).getD []) gid)) p.2).getD []
          rw [hpc, lookupA_insertA, if_pos rfl, Option.getD_some]
          rw [hpc] at hold
          exact mem_setAdd.mpr (Or.inr hold)
        · show p.1 ∈ (lookupA (insertA st.creator_active_groups addr
            (setAdd ((lookupA st.creator_active_groups addr).getD []) gid)) p.2).getD []
          rw [lookupA_insertA, if_neg (fun h => hpc h.symm)]
          exact hold

/-- Two states with equal fields are equal. -/
theorem state_eq (s1 s2 : ServerState) (h1 : s1.groups = s2.groups)
    (h2 : s1.group_creator = s2.group_creator) (h3 : s1.empty_since = s2.empty_since)
    (h4 : s1.creator_active_groups = s2.creator_active_groups)
    (h5 : s1.client_group = s2.client_group) (h6 : s1.last_seen = s2.last_seen) :
    s1 = s2 := by
  cases s1
  cases s2
  simp_all

/-- Re-marking the empty-timer of one group restores the full invariant,
provided every other timer/emptiness pair is already consistent. -/
theorem inv_mark (cfg : Config) (st : ServerState) (gid : Gid) (now : Time)
    (hND : AllNodup st) (hGV : GroupsValid st) (hCGV : CGValid st) (hCGL : CGLive st)
    (hMB : MembersBound st) (hMN : MembersNodup st) (hQB : QuotaBound cfg st)
    (hCB : CapBound cfg st) (hCC : CagComplete st)
    (hESE : ∀ e ∈ st.empty_since, e.1 ≠ gid → lookupA st.groups e.1 = some [])
    (hEHT : ∀ q ∈ st.groups, q.1 ≠ gid → q.2 = [] →
      (lookupA st.empty_since q.1).isSome) :
    Inv cfg (mark_group_empty_if_needed st gid now) := by
  obtain ⟨ndG, ndGC, ndES, ndCAG, ndCG, ndLS⟩ := hND
  refine ⟨⟨?_, ?_, ?_, ?_, ?_, ?_⟩, ?_, ?_, ?_, ?_, ?_, ?_, ?_, ?_, ?_, ?_⟩
  · rw [mark_groups]; exact ndG
  · rw [mark_group_creator]; exact ndGC
  · rw [mark_empty_since]
    split_ifs
    · exact nodupKeys_insertA ndES
    · exact nodupKeys_eraseA ndES
  · rw [mark_creator_active_groups]; exact ndCAG
  · rw [mark_client_group]; exact ndCG
  · rw [mark_last_seen]; exact ndLS
  · unfold GroupsValid; rw [mark_groups]; exact hGV
  · unfold CGValid; rw [mark_client_group]; exact hCGV
  · unfold CGLive; rw [mark_client_group, mark_groups]; exact hCGL
  · unfold MembersBound; rw [mark_groups, mark_client_group]; exact hMB
  · unfold MembersNodup; rw [mark_groups]; exact hMN
  · unfold QuotaBound; rw [mark_creator_active_groups]; exact hQB
  · unfold CapBound; rw [mark_groups]; exact hCB
  · unfold EmptySinceEmpty; rw [mark_empty_since, mark_groups]
    split_ifs with hg
    · intro e he
      rcases mem_insertA.mp he with rfl | ⟨he1, hne⟩
      · exact hg
      · exact hESE e he1 hne
    · intro e he
      obtain ⟨he1, hne⟩ := mem_eraseA.mp he
      exact hESE e he1 hne
  · unfold EmptyHasTimer; rw [mark_groups, mark_empty_since]
    split_ifs with hg
    · intro q hq hq2
      by_cases hqg : q.1 = gid
      · rw [lookupA_insertA, if_pos hqg.symm]
        simp
      · rw [lookupA_insertA, if_neg (fun h => hqg h.symm)]
        exact hEHT q hq hqg hq2
    · intro q hq hq2
      by_cases hqg : q.1 = gid
      · exfalso
        apply hg
        have hx : lookupA st.groups gid = some q.2 := by
          rw [← hqg]
          exact mem_lookupA ndG hq
        rw [hq2] at hx
        exact hx
      · rw [lookupA_eraseA, if_neg (fun h => hqg h.symm)]
        exact hEHT q hq hqg hq2
  · unfold CagComplete
    rw [mark_group_creator, mark_groups, mark_creator_active_groups]
    exact hCC

/-- Removing a bound client from its group, dropping its session records
and re-marking the group preserves the invariant.  This is the common
core of the LEAVE handler and of the inactive-client sweep pass. -/
theorem inv_evict (cfg : Config) (st : ServerState) (addr : Addr) (cur : Gid)
    (m : List Addr) (now : Time) (hInv : Inv cfg st)
    (hcg : lookupA st.client_group addr = some cur)
    (hm : lookupA st.groups cur = some m) :
    Inv cfg (mark_group_empty_if_needed
      { st with groups := insertA st.groups cur (setDiscard m addr),
                client_group := eraseA st.client_group addr,
                last_seen := eraseA st.last_seen addr } cur now) := by
  obtain ⟨⟨ndG, ndGC, ndES, ndCAG, ndCG, ndLS⟩, hGV, hCGV, hCGL, hMB, hMN,
    hQB, hCB, hESE, hEHT, hCC⟩ := hInv
  have hmemG : (cur, m) ∈ st.groups := lookupA_mem hm
  apply inv_mark
  · exact ⟨nodupKeys_insertA ndG, ndGC, ndES, ndCAG, nodupKeys_eraseA ndCG,
      nodupKeys_eraseA ndLS⟩
  · intro q hq
    rcases mem_insertA.mp hq with rfl | ⟨hq1, _⟩
    · exact hGV (cur, m) hmemG
    · exact hGV _ hq1
  · intro p hp
    exact hCGV _ (mem_eraseA.mp hp).1
  · intro p hp
    obtain ⟨hp1, hpa⟩ := mem_eraseA.mp hp
    have hold := hCGL p hp1
    show p.1 ∈ (lookupA (insertA st.groups cur (setDiscard m addr)) p.2).getD []
    rw [lookupA_insertA]
    by_cases hc : cur = p.2
    · rw [if_pos hc, Option.getD_some]
      rw [← hc, hm] at hold
      simp only [Option.getD_some] at hold
      exact mem_setDiscard.mpr ⟨hold, hpa⟩
    · rw [if_neg hc]
      exact hold
  · intro q hq a ha
    show lookupA (eraseA st.client_group addr) a = some q.1
    rcases mem_insertA.mp hq with rfl | ⟨hq1, hqc⟩
    · obtain ⟨ham, hane⟩ := mem_setDiscard.mp ha
      rw [lookupA_eraseA, if_neg (fun h => hane h.symm)]
      exact hMB _ hmemG a ham
    · have hR := hMB _ hq1 a ha
      by_cases haddr : addr = a
      · exfalso
        apply hqc
        rw [← haddr] at hR
        rw [hcg] at hR
        injection hR with hR2
        exact hR2.symm
      · rw [lookupA_eraseA, if_neg haddr]
        exact hR
  · intro q hq
    rcases mem_insertA.mp hq with rfl | ⟨hq1, _⟩
    · exact nodup_setDiscard (hMN _ hmemG)
    · exact hMN _ hq1
  · exact hQB
  · intro q hq
    rcases mem_insertA.mp hq with rfl | ⟨hq1, _⟩
    · intro c hc
      have h1 : m.length ≤ c := hCB _ hmemG c hc
      have h2 := length_setDiscard_le (s := m) (y := addr)
      dsimp only
      omega
    · exact hCB _ hq1
  · intro p hp hk
    apply hCC p hp
    rcases mem_keysA_insertA.mp hk with h1 | h1
    · rw [h1]
      exact mem_keysA.mpr ⟨m, hmemG⟩
    · exact h1
  · intro e he hne
    show lookupA (insertA st.groups cur (setDiscard m addr)) e.1 = some []
    rw [lookupA_insertA, if_neg (fun h => hne h.symm)]
    exact hESE e he
  · intro q hq hne hq2
    rcases mem_insertA.mp hq with rfl | ⟨hq1, _⟩
    · exact absurd rfl hne
    · exact hEHT q hq1 hq2

/-- Replacing only the last-seen registry preserves the invariant. -/
theorem inv_set_last_seen (cfg : Config) (st : ServerState)
    (ls : List (Addr × Time)) (hInv : Inv cfg st) (hnd : NodupKeys ls) :
    Inv cfg { st with last_seen := ls } := by
  obtain ⟨⟨ndG, ndGC, ndES, ndCAG, ndCG, _⟩, hGV, hCGV, hCGL, hMB, hMN,
    hQB, hCB, hESE, hEHT, hCC⟩ := hInv
  exact ⟨⟨ndG, ndGC, ndES, ndCAG, ndCG, hnd⟩, hGV, hCGV, hCGL, hMB, hMN,
    hQB, hCB, hESE, hEHT, hCC⟩

theorem inv_handle_leave (cfg : Config) (st : ServerState) (arg : Bytes)
    (addr : Addr) (now : Time) (hInv : Inv cfg st) :
    Inv cfg (handle_leave st arg addr now).1 := by
  unfold handle_leave
  by_cases hempty : normGid arg = []
  · rw [if_pos hempty]
    exact hInv
  · rw [if_neg hempty]
    rcases hcg : lookupA st.client_group addr with _ | cur
    · exact hInv
    · dsimp only
      have hval : validGid cur := hInv.2.2.1 _ (lookupA_mem hcg)
      have hupper : pyUpper cur = cur := validGid_pyUpper_fixed hval
      by_cases hmatch : cur = [] ∨ pyUpper cur ≠ normGid arg
      · rw [if_pos hmatch]
        exact hInv
      · rw [if_neg hmatch]
        push_neg at hmatch
        obtain ⟨hne, heq⟩ := hmatch
        have hg : normGid arg = cur := by rw [← heq, hupper]
        obtain ⟨_, m, hm, hmem⟩ := binding_live hInv hcg
        rw [hg]
        dsimp only
        rw [hm]
        dsimp only
        have hfe :
            ({ mark_group_empty_if_needed
                { st with client_group := eraseA st.client_group addr,
                          groups := insertA st.groups cur (setDiscard m addr) }
                cur now
               with last_seen :=
                eraseA (mark_group_empty_if_needed
                  { st with client_group := eraseA st.client_group addr,
                            groups := insertA st.groups cur (setDiscard m addr) }
                  cur now).last_seen addr } : ServerState) =
            mark_group_empty_if_needed
              { st with groups := insertA st.groups cur (setDiscard m addr),
                        client_group := eraseA st.client_group addr,
                        last_seen := eraseA st.last_seen addr } cur now := by
          apply state_eq <;>
            simp [mark_groups, mark_group_creator, mark_empty_since,
              mark_creator_active_groups, mark_client_group, mark_last_seen]
        rw [hfe]
        exact inv_evict cfg st addr cur m now hInv hcg hm

theorem inv_sweepStep1 (cfg : Config) (now cutoff : Time) (st : ServerState)
    (entry : Addr × Time) (hInv : Inv cfg st) :
    Inv cfg (sweepStep1 now cutoff st entry) := by
  unfold sweepStep1
  by_cases hstale : entry.2 < cutoff
  · rw [if_pos hstale]
    rcases hcg : lookupA st.client_group entry.1 with _ | gid
    · rw [eraseA_lookup_none hcg]
      exact inv_set_last_seen cfg st _ hInv (nodupKeys_eraseA hInv.1.2.2.2.2.2)
    · obtain ⟨hne, m, hm, hmem⟩ := binding_live hInv hcg
      dsimp only
      rw [if_pos hne, hm]
      exact inv_evict cfg st entry.1 gid m now hInv hcg hm
  · rw [if_neg hstale]
    exact hInv

theorem remove_group_gc_none {st : ServerState} {gid : Gid}
    (h : lookupA st.group_creator gid = none) :
    remove_group st gid =
      { st with groups := eraseA st.groups gid,
                empty_since := eraseA st.empty_since gid,
                group_creator := eraseA st.group_creator gid } := by
  unfold remove_group
  rw [h]

theorem remove_group_cag_none {st : ServerState} {gid : Gid} {creator : Addr}
    (h1 : lookupA st.group_creator gid = some creator)
    (h2 : lookupA st.creator_active_groups creator = none) :
    remove_group st gid =
      { st with groups := eraseA st.groups gid,
                empty_since := eraseA st.empty_since gid,
                group_creator := eraseA st.group_creator gid } := by
  unfold remove_group
  rw [h1]
  dsimp only
  rw [h2]

theorem remove_group_cag_some {st : ServerState} {gid : Gid} {creator : Addr}
    {s : List Gid} (h1 : lookupA st.group_creator gid = some creator)
    (h2 : lookupA st.creator_active_groups creator = some s) :
    remove_group st gid =
      if setDiscard s gid = [] then
        { st with groups := eraseA st.groups gid,
                  empty_since := eraseA st.empty_since gid,
                  group_creator := eraseA st.group_creator gid,
                  creator_active_groups := eraseA st.creator_active_groups creator }
      else
        { st with groups := eraseA st.groups gid,
                  empty_since := eraseA st.empty_since gid,
                  group_creator := eraseA st.group_creator gid,
                  creator_active_groups :=
                    insertA st.creator_active_groups creator (setDiscard s gid) } := by
  unfold remove_group
  rw [h1]
  dsimp only
  rw [h2]

theorem inv_remove_group (cfg : Config) (st : ServerState) (gid : Gid)
    (hInv : Inv cfg st) (hEmpty : lookupA st.groups gid = some []) :
    Inv cfg (remove_group st gid) := by
  obtain ⟨⟨ndG, ndGC, ndES, ndCAG, ndCG, ndLS⟩, hGV, hCGV, hCGL, hMB, hMN,
    hQB, hCB, hESE, hEHT, hCC⟩ := hInv
  have hGV1 : ∀ q ∈ eraseA st.groups gid, validGid q.1 :=
    fun q hq => hGV _ (mem_eraseA.mp hq).1
  have hCGL1 : ∀ p ∈ st.client_group,
      p.1 ∈ (lookupA (eraseA st.groups gid) p.2).getD [] := by
    intro p hp
    have hold := hCGL p hp
    have hpg : p.2 ≠ gid := by
      intro he
      rw [he, hEmpty] at hold
      simp at hold
    rw [lookupA_eraseA, if_neg (fun h => hpg h.symm)]
    exact hold
  have hMB1 : ∀ q ∈ eraseA st.groups gid, ∀ a ∈ q.2,
      lookupA st.client_group a = some q.1 :=
    fun q hq => hMB _ (mem_eraseA.mp hq).1
  have hMN1 : ∀ q ∈ eraseA st.groups gid, q.2.Nodup :=
    fun q hq => hMN _ (mem_eraseA.mp hq).1
  have hCB1 : ∀ q ∈ eraseA st.groups gid, capOkAt cfg q.1 q.2.length :=
    fun q hq => hCB _ (mem_eraseA.mp hq).1
  have hESE1 : ∀ e ∈ eraseA st.empty_since gid,
      lookupA (eraseA st.groups gid) e.1 = some [] := by
    intro e he
    obtain ⟨he1, hne⟩ := mem_eraseA.mp he
    rw [lookupA_eraseA, if_neg (fun h => hne h.symm)]
    exact hESE e he1
  have hEHT1 : ∀ q ∈ eraseA st.groups gid, q.2 = [] →
      (lookupA (eraseA st.empty_since gid) q.1).isSome := by
    intro q hq hq2
    obtain ⟨hq1, hne⟩ := mem_eraseA.mp hq
    rw [lookupA_eraseA, if_neg (fun h => hne h.symm)]
    exact hEHT q hq1 hq2
  have hkeys1 : ∀ x, x ∈ keysA (eraseA st.groups gid) →
      x ∈ keysA st.groups ∧ x ≠ gid := by
    intro x hx
    rcases mem_keysA.mp hx with ⟨v, hv⟩
    obtain ⟨hv1, hvne⟩ := mem_eraseA.mp hv
    exact ⟨mem_keysA.mpr ⟨v, hv1⟩, hvne⟩
  rcases hgc : lookupA st.group_creator gid with _ | creator
  · rw [remove_group_gc_none hgc]
    refine ⟨⟨nodupKeys_eraseA ndG, nodupKeys_eraseA ndGC, nodupKeys_eraseA ndES,
      ndCAG, ndCG, ndLS⟩, hGV1, hCGV, hCGL1, hMB1, hMN1, hQB, hCB1, hESE1,
      hEHT1, ?_⟩
    intro p hp hk
    exact hCC p (mem_eraseA.mp hp).1 (hkeys1 _ hk).1
  · rcases hcag : lookupA st.creator_active_groups creator with _ | s
    · rw [remove_group_cag_none hgc hcag]
      refine ⟨⟨nodupKeys_eraseA ndG, nodupKeys_eraseA ndGC, nodupKeys_eraseA ndES,
        ndCAG, ndCG, ndLS⟩, hGV1, hCGV, hCGL1, hMB1, hMN1, hQB, hCB1, hESE1,
        hEHT1, ?_⟩
      intro p hp hk
      exact hCC p (mem_eraseA.mp hp).1 (hkeys1 _ hk).1
    · rw [remove_group_cag_some hgc hcag]
      by_cases hdisc : setDiscard s gid = []
      · rw [if_pos hdisc]
        refine ⟨⟨nodupKeys_eraseA ndG, nodupKeys_eraseA ndGC, nodupKeys_eraseA ndES,
          nodupKeys_eraseA ndCAG, ndCG, ndLS⟩, hGV1, hCGV, hCGL1, hMB1, hMN1,
          ?_, hCB1, hESE1, hEHT1, ?_⟩
        · intro r hr
          exact hQB _ (mem_eraseA.mp hr).1
        · intro p hp hk
          obtain ⟨hp1, _⟩ := mem_eraseA.mp hp
          have hold := hCC p hp1 (hkeys1 _ hk).1
          by_cases hpc : p.2 = creator
          · exfalso
            rw [hpc, hcag, Option.getD_some] at hold
            have hx : p.1 ∈ setDiscard s gid :=
              mem_setDiscard.mpr ⟨hold, (hkeys1 _ hk).2⟩
            rw [hdisc] at hx
            simp at hx
          · show p.1 ∈ (lookupA (eraseA st.creator_active_groups creator) p.2).getD []
            rw [lookupA_eraseA, if_neg (fun h => hpc h.symm)]
            exact hold
      · rw [if_neg hdisc]
        refine ⟨⟨nodupKeys_eraseA ndG, nodupKeys_eraseA ndGC, nodupKeys_eraseA ndES,
          nodupKeys_insertA ndCAG, ndCG, ndLS⟩, hGV1, hCGV, hCGL1, hMB1, hMN1,
          ?_, hCB1, hESE1, hEHT1, ?_⟩
        · intro r hr
          rcases mem_insertA.mp hr with rfl | ⟨hr1, _⟩
          · have h1 : s.length ≤ cfg.max_groups_per_client :=
              hQB (creator, s) (lookupA_mem hcag)
            have h2 := length_setDiscard_le (s := s) (y := gid)
            dsimp only
            omega
          · exact hQB _ hr1
        · intro p hp hk
          obtain ⟨hp1, _⟩ := mem_eraseA.mp hp
          have hold := hCC p hp1 (hkeys1 _ hk).1
          by_cases hpc : p.2 = creator
          · show p.1 ∈ (lookupA (insertA st.creator_active_groups creator
              (setDiscard s gid)) p.2).getD []
            rw [hpc, lookupA_insertA, if_pos rfl, Option.getD_some]
            rw [hpc, hcag, Option.getD_some] at hold
            exact mem_setDiscard.mpr ⟨hold, (hkeys1 _ hk).2⟩
          · show p.1 ∈ (lookupA (insertA st.creator_active_groups creator
              (setDiscard s gid)) p.2).getD []
            rw [lookupA_insertA, if_neg (fun h => hpc h.symm)]
            exact hold

theorem inv_sweepStep2 (cfg : Config) (cutoff : Time) (st : ServerState)
    (entry : Gid × Time) (hInv : Inv cfg st) :
    Inv cfg (sweepStep2 cutoff st entry) := by
  unfold sweepStep2
  by_cases hc : entry.2 < cutoff ∧ lookupA st.groups entry.1 = some []
  · rw [if_pos hc]
    exact inv_remove_group cfg st entry.1 hInv hc.2
  · rw [if_neg hc]
    exact hInv

theorem inv_sweep (cfg : Config) (st : ServerState) (now : Time)
    (hInv : Inv cfg st) : Inv cfg (sweep cfg st now) := by
  unfold sweep
  exact foldl_preserve (fun s e hs => inv_sweepStep2 cfg _ s e hs) _ _
    (foldl_preserve (fun s e hs => inv_sweepStep1 cfg _ _ s e hs) _ _ hInv)

theorem setAdd_ne_nil {α : Type} [DecidableEq α] {s : List α} {x : α} :
    setAdd s x ≠ [] := by
  unfold setAdd
  by_cases h : x ∈ s
  · rw [if_pos h]
    exact List.ne_nil_of_mem h
  · rw [if_neg h]
    exact List.cons_ne_nil x s

theorem eraseA_idem {α β : Type} [DecidableEq α] {m : List (α × β)} {k : α} :
    eraseA (eraseA m k) k = eraseA m k := by
  apply List.filter_eq_self.mpr
  intro p hp
  simpa using (mem_eraseA.mp hp).2

theorem insertA_eraseA_self {α β : Type} [DecidableEq α] {m : List (α × β)}
    {k : α} {v : β} : insertA (eraseA m k) k v = insertA m k v := by
  unfold insertA
  rw [eraseA_idem]

/-- Binding an unbound client into a live group with room preserves the
invariant.  This is the committing step of `handle_join`. -/
theorem inv_join_bind (cfg : Config) (st : ServerState) (gid : Gid)
    (members : List Addr) (addr : Addr) (now : Time) (hInv : Inv cfg st)
    (hg : lookupA st.groups gid = some members)
    (hcur : lookupA st.client_group addr = none)
    (hroom : ∀ c, cap_for cfg gid = some c → members.length < c) :
    Inv cfg { st with
      groups := insertA st.groups gid (setAdd members addr),
      client_group := insertA st.client_group addr gid,
      last_seen := insertA st.last_seen addr now,
      empty_since := eraseA st.empty_since gid } := by
  obtain ⟨⟨ndG, ndGC, ndES, ndCAG, ndCG, ndLS⟩, hGV, hCGV, hCGL, hMB, hMN,
    hQB, hCB, hESE, hEHT, hCC⟩ := hInv
  have hmemG : (gid, members) ∈ st.groups := lookupA_mem hg
  have hvg : validGid gid := hGV (gid, members) hmemG
  refine ⟨⟨nodupKeys_insertA ndG, ndGC, nodupKeys_eraseA ndES, ndCAG,
    nodupKeys_insertA ndCG, nodupKeys_insertA ndLS⟩, ?_, ?_, ?_, ?_, ?_, hQB,
    ?_, ?_, ?_, ?_⟩
  · -- GroupsValid
    intro q hq
    rcases mem_insertA.mp hq with rfl | ⟨hq1, _⟩
    · exact hvg
    · exact hGV _ hq1
  · -- CGValid
    intro p hp
    rcases mem_insertA.mp hp with rfl | ⟨hp1, _⟩
    · exact hvg
    · exact hCGV _ hp1
  · -- CGLive
    intro p hp
    show p.1 ∈ (lookupA (insertA st.groups gid (setAdd members addr)) p.2).getD []
    rcases mem_insertA.mp hp with rfl | ⟨hp1, hpa⟩
    · rw [lookupA_insertA, if_pos rfl, Option.getD_some]
      exact mem_setAdd.mpr (Or.inl rfl)
    · have hold := hCGL p hp1
      rw [lookupA_insertA]
      by_cases hpg : gid = p.2
      · rw [if_pos hpg, Option.getD_some]
        rw [← hpg, hg, Option.getD_some] at hold
        exact mem_setAdd.mpr (Or.inr hold)
      · rw [if_neg hpg]
        exact hold
  · -- MembersBound
    intro q hq a ha
    show lookupA (insertA st.client_group addr gid) a = some q.1
    rcases mem_insertA.mp hq with rfl | ⟨hq1, hqg⟩
    · rcases mem_setAdd.mp ha with rfl | ham
      · rw [lookupA_insertA, if_pos rfl]
      · have hR := hMB _ hmemG a ham
        have hane : addr ≠ a := by
          intro he
          rw [← he, hcur] at hR
          cases hR
        rw [lookupA_insertA, if_neg hane]
        exact hR
    · have hR := hMB _ hq1 a ha
      have hane : addr ≠ a := by
        intro he
        rw [← he, hcur] at hR
        cases hR
      rw [lookupA_insertA, if_neg hane]
      exact hR
  · -- MembersNodup
    intro q hq
    rcases mem_insertA.mp hq with rfl | ⟨hq1, _⟩
    · exact nodup_setAdd (hMN _ hmemG)
    · exact hMN _ hq1
  · -- CapBound
    intro q hq
    rcases mem_insertA.mp hq with rfl | ⟨hq1, _⟩
    · intro c hc
      have h1 : members.length < c := hroom c hc
      have h2 := length_setAdd_le (s := members) (y := addr)
      dsimp only
      omega
    · exact hCB _ hq1
  · -- EmptySinceEmpty
    intro e he
    obtain ⟨he1, hne⟩ := mem_eraseA.mp he
    show lookupA (insertA st.groups gid (setAdd members addr)) e.1 = some []
    rw [lookupA_insertA, if_neg (fun h => hne h.symm)]
    exact hESE e he1
  · -- EmptyHasTimer
    intro q hq hq2
    rcases mem_insertA.mp hq with rfl | ⟨hq1, hne⟩
    · exact absurd hq2 setAdd_ne_nil
    · show (lookupA (eraseA st.empty_since gid) q.1).isSome
      rw [lookupA_eraseA, if_neg (fun h => hne h.symm)]
      exact hEHT q hq1 hq2
  · -- CagComplete
    intro p hp hk
    apply hCC p hp
    rcases mem_keysA_insertA.mp hk with h1 | h1
    · rw [h1]
      exact mem_keysA.mpr ⟨members, hmemG⟩
    · exact h1

theorem inv_handle_join (cfg : Config) (st : ServerState) (arg : Bytes)
    (addr : Addr) (now : Time) (hInv : Inv cfg st) :
    Inv cfg (handle_join cfg st arg addr now).1 := by
  unfold handle_join
  by_cases hempty : normGid arg = []
  · rw [if_pos hempty]
    exact hInv
  · rw [if_neg hempty]
    rcases hg : lookupA st.groups (normGid arg) with _ | members
    · exact hInv
    · dsimp only
      by_cases hsame : lookupA st.client_group addr = some (normGid arg)
      · rw [if_pos hsame]
        exact inv_set_last_seen cfg st _ hInv (nodupKeys_insertA hInv.1.2.2.2.2.2)
      · rw [if_neg hsame]
        by_cases hcap : (match cap_for cfg (normGid arg) with
            | some cap => decide (cap ≤ members.length)
            | none => false) = true
        · rw [if_pos hcap]
          exact hInv
        · rw [if_neg hcap]
          have hroom : ∀ c, cap_for cfg (normGid arg) = some c →
              members.length < c := by
            intro c hc
            rw [hc] at hcap
            simp only [decide_eq_true_eq] at hcap
            omega
          rcases hcur : lookupA st.client_group addr with _ | cur
          · dsimp only
            rw [hg]
            exact inv_join_bind cfg st (normGid arg) members addr now hInv hg
              hcur hroom
          · have hcurne : cur ≠ normGid arg := by
              intro h
              apply hsame
              rw [hcur, h]
            have hval : validGid cur := hInv.2.2.1 _ (lookupA_mem hcur)
            have hcne : cur ≠ [] := validGid_ne_nil hval
            obtain ⟨_, mcur, hmcur, hmemcur⟩ := binding_live hInv hcur
            dsimp only
            rw [if_pos hcne, hmcur]
            dsimp only
            have hinvE := inv_evict cfg st addr cur mcur now hInv hcur hmcur
            have hgE : lookupA (insertA st.groups cur (setDiscard mcur addr))
                (normGid arg) = some members := by
              rw [lookupA_insertA, if_neg hcurne]
              exact hg
            have hbind := inv_join_bind cfg
              (mark_group_empty_if_needed
                { st with groups := insertA st.groups cur (setDiscard mcur addr),
                          client_group := eraseA st.client_group addr,
                          last_seen := eraseA st.last_seen addr } cur now)
              (normGid arg) members addr now hinvE
              (by rw [mark_groups]; exact hgE)
              (by rw [mark_client_group]; dsimp only; rw [lookupA_eraseA, if_pos rfl])
              hroom
            have hfe :
                ({ { mark_group_empty_if_needed
                      { st with groups := insertA st.groups cur (setDiscard mcur addr) }
                      cur now with
                    client_group := insertA (mark_group_empty_if_needed
                      { st with groups := insertA st.groups cur (setDiscard mcur addr) }
                      cur now).client_group addr (normGid arg),
                    groups := insertA (mark_group_empty_if_needed
                      { st with groups := insertA st.groups cur (setDiscard mcur addr) }
                      cur now).groups (normGid arg)
                      (setAdd ((lookupA (mark_group_empty_if_needed
                        { st with groups := insertA st.groups cur (setDiscard mcur addr) }
                        cur now).groups (normGid arg)).getD []) addr),
                    last_seen := insertA (mark_group_empty_if_needed
                      { st with groups := insertA st.groups cur (setDiscard mcur addr) }
                      cur now).last_seen addr now }
                  with empty_since := eraseA (mark_group_empty_if_needed
                    { st with groups := insertA st.groups cur (setDiscard mcur addr) }
                    cur now).empty_since (normGid arg) } : ServerState) =
                { mark_group_empty_if_needed
                    { st with groups := insertA st.groups cur (setDiscard mcur addr),
                              client_group := eraseA st.client_group addr,
                              last_seen := eraseA st.last_seen addr } cur now with
                  groups := insertA (mark_group_empty_if_needed
                    { st with groups := insertA st.groups cur (setDiscard mcur addr),
                              client_group := eraseA st.client_group addr,
                              last_seen := eraseA st.last_seen addr } cur now).groups
                    (normGid arg) (setAdd members addr),
                  client_group := insertA (mark_group_empty_if_needed
                    { st with groups := insertA st.groups cur (setDiscard mcur addr),
                              client_group := eraseA st.client_group addr,
                              last_seen := eraseA st.last_seen addr } cur now).client_group
                    addr (normGid arg),
                  last_seen := insertA (mark_group_empty_if_needed
                    { st with groups := insertA st.groups cur (setDiscard mcur addr),
                              client_group := eraseA st.client_group addr,
                              last_seen := eraseA st.last_seen addr } cur now).last_seen
                    addr now,
                  empty_since := eraseA (mark_group_empty_if_needed
                    { st with groups := insertA st.groups cur (setDiscard mcur addr),
                              client_group := eraseA st.client_group addr,
                              last_seen := eraseA st.last_seen addr } cur now).empty_since
                    (normGid arg) } := by
              apply state_eq <;>
                simp [mark_groups, mark_group_creator, mark_empty_since,
                  mark_creator_active_groups, mark_client_group, mark_last_seen,
                  insertA_eraseA_self, hgE]
            rw [hfe]
            exact hbind

theorem inv_handle_payload (cfg : Config) (st : ServerState) (packet : Bytes)
    (addr : Addr) (now : Time) (fails : Addr → Bool) (hInv : Inv cfg st) :
    Inv cfg (handle_payload st packet addr now fails).1 := by
  unfold handle_payload
  by_cases hbig : MAX_PAYLOAD < packet.length
  · rw [if_pos hbig]
    exact hInv
  · rw [if_neg hbig]
    rcases hcg : lookupA st.client_group addr with _ | gid
    · rw [eraseA_lookup_none hcg]
      exact hInv
    · obtain ⟨hne, m, hm, hmem⟩ := binding_live hInv hcg
      dsimp only
      rw [hm, if_neg (by simp [hne])]
      dsimp only
      obtain ⟨⟨ndG, ndGC, ndES, ndCAG, ndCG, ndLS⟩, hGV, hCGV, hCGL, hMB, hMN,
        hQB, hCB, hESE, hEHT, hCC⟩ := hInv
      have hmemG : (gid, m) ∈ st.groups := lookupA_mem hm
      have hprune_sub : ∀ x, x ∈ m.filter (fun p => p ≠ addr ∧ fails p = true) →
          x ∈ m := by
        intro x hx
        exact (List.mem_filter.mp hx).1
      apply inv_mark
      · exact ⟨nodupKeys_insertA ndG, ndGC, ndES, ndCAG, nodupKeys_eraseKeys ndCG,
          nodupKeys_eraseKeys (nodupKeys_insertA ndLS)⟩
      · intro q hq
        rcases mem_insertA.mp hq with rfl | ⟨hq1, _⟩
        · exact hGV (gid, m) hmemG
        · exact hGV _ hq1
      · intro p hp
        exact hCGV _ (mem_eraseKeys.mp hp).1
      · intro p hp
        obtain ⟨hp1, hpk⟩ := mem_eraseKeys.mp hp
        have hold := hCGL p hp1
        show p.1 ∈ (lookupA (insertA st.groups gid
          (m.filter (fun p => p ∉ m.filter (fun r => r ≠ addr ∧ fails r = true)))) p.2).getD []
        rw [lookupA_insertA]
        by_cases hpg : gid = p.2
        · rw [if_pos hpg, Option.getD_some]
          rw [← hpg, hm, Option.getD_some] at hold
          apply List.mem_filter.mpr
          exact ⟨hold, decide_eq_true hpk⟩
        · rw [if_neg hpg]
          exact hold
      · intro q hq a ha
        show lookupA (eraseKeys st.client_group
          (m.filter (fun r => r ≠ addr ∧ fails r = true))) a = some q.1
        rw [lookupA_eraseKeys2]
        rcases mem_insertA.mp hq with rfl | ⟨hq1, hqg⟩
        · obtain ⟨ham, hak⟩ := List.mem_filter.mp ha
          simp only [Option.getD_some] at ham hak
          rw [if_neg (of_decide_eq_true hak)]
          exact hMB _ hmemG a ham
        · have hR := hMB _ hq1 a ha
          have hanp : a ∉ m.filter (fun r => r ≠ addr ∧ fails r = true) := by
            intro hx
            have hxm := hprune_sub a hx
            have := hMB _ hmemG a hxm
            rw [this] at hR
            exact hqg (by injection hR with h2; exact h2.symm)
          rw [if_neg hanp]
          exact hR
      · intro q hq
        rcases mem_insertA.mp hq with rfl | ⟨hq1, _⟩
        · exact List.Nodup.filter _ (hMN _ hmemG)
        · exact hMN _ hq1
      · exact hQB
      · intro q hq
        rcases mem_insertA.mp hq with rfl | ⟨hq1, _⟩
        · intro c hc
          dsimp only
          exact le_trans (List.length_filter_le _ m) (hCB _ hmemG c hc)
        · exact hCB _ hq1
      · intro p hp hk
        apply hCC p hp
        rcases mem_keysA_insertA.mp hk with h1 | h1
        · rw [h1]
          exact mem_keysA.mpr ⟨m, hmemG⟩
        · exact h1
      · intro e he hne2
        show lookupA (insertA st.groups gid
          (m.filter (fun p => p ∉ m.filter (fun r => r ≠ addr ∧ fails r = true)))) e.1 =
          some []
        rw [lookupA_insertA, if_neg (fun h => hne2 h.symm)]
        exact hESE e he
      · intro q hq hne2 hq2
        rcases mem_insertA.mp hq with rfl | ⟨hq1, _⟩
        · exact absurd rfl hne2
        · exact hEHT q hq1 hq2

theorem inv_handle_command (cfg : Config) (st : ServerState) (packet : Bytes)
    (addr : Addr) (now : Time) (freshGid : Gid) (hInv : Inv cfg st)
    (hval : validGid freshGid) (hfresh : freshGid ∉ keysA st.groups) :
    Inv cfg (handle_command cfg st packet addr now freshGid).1 := by
  unfold handle_command
  by_cases h1 : (split_cmd_arg packet).1 = []
  · rw [if_pos h1]
    exact hInv
  · rw [if_neg h1]
    by_cases h2 : MAX_CMD_LEN < (split_cmd_arg packet).1.length
    · rw [if_pos h2]
      exact hInv
    · rw [if_neg h2]
      by_cases h3 : (split_cmd_arg packet).1 = CREATE_CMD
      · rw [if_pos h3]
        exact inv_handle_create cfg st freshGid addr now hInv hval hfresh
      · rw [if_neg h3]
        by_cases h4 : (split_cmd_arg packet).1 = JOIN_CMD
        · rw [if_pos h4]
          exact inv_handle_join cfg st (split_cmd_arg packet).2 addr now hInv
        · rw [if_neg h4]
          by_cases h5 : (split_cmd_arg packet).1 = LEAVE_CMD
          · rw [if_pos h5]
            exact inv_handle_leave cfg st (split_cmd_arg packet).2 addr now hInv
          · rw [if_neg h5]
            by_cases h6 : (split_cmd_arg packet).1 = PING_CMD
            · rw [if_pos h6]
              exact inv_handle_ping cfg st addr now hInv
            · rw [if_neg h6]
              by_cases h7 : (split_cmd_arg packet).1 = WHO_CMD
              · rw [if_pos h7]
                exact inv_handle_who cfg st addr hInv
              · rw [if_neg h7]
                exact hInv

theorem inv_processPacket (cfg : Config) (st : ServerState) (data : Bytes)
    (addr : Addr) (now : Time) (freshGid : Gid) (fails : Addr → Bool)
    (hInv : Inv cfg st) (hval : validGid freshGid)
    (hfresh : freshGid ∉ keysA st.groups) :
    Inv cfg (processPacket cfg st data addr now freshGid fails).1 := by
  unfold processPacket
  by_cases h0 : data.take (cfg.bufsize + 1) = []
  · rw [if_pos h0]
    exact hInv
  · rw [if_neg h0]
    by_cases h1 : MAX_PAYLOAD < (data.take (cfg.bufsize + 1)).length
    · rw [if_pos h1]
      exact hInv
    · rw [if_neg h1]
      by_cases h2 : (data.take (cfg.bufsize + 1)).take 1 ≠ ['!']
      · rw [if_pos h2]
        exact inv_handle_payload cfg st _ addr now fails hInv
      · rw [if_neg h2]
        exact inv_handle_command cfg st _ addr now freshGid hInv hval hfresh

/-- Main safety theorem of the embedding: the invariant holds in every
state reachable by any sequence of processed packets and sweeps. -/
theorem reachable_inv {cfg : Config} {st : ServerState} (h : Reachable cfg st) :
    Inv cfg st := by
  induction h with
  | init => exact inv_init cfg
  | @pkt st data addr now freshGid fails hre hval hfresh ih =>
      exact inv_processPacket cfg st data addr now freshGid fails ih hval hfresh
  | @sweepRun st now hre ih => exact inv_sweep cfg st now ih

/-! ### Concrete fixtures for witnesses and counterexamples -/

/-- The default configuration of `UDPGroupServer.__init__`. -/
def cfg0 : Config := {}

def addrA : Addr := ("10.0.0.1", 1111)

def addrB : Addr := ("10.0.0.2", 2222)

/-- A group identifier as produced by `random_group_id`. -/
def gidX : Gid := "AB3F7K9Q".toList

/-- A second allocator output, distinct from `gidX`. -/
def gidY : Gid := "CDEF1234".toList

/-- A transport where no `sendto` fails. -/
def noFails : Addr → Bool := fun _ => false

/-- State after client A creates the group `gidX`. -/
def stA : ServerState :=
  (processPacket cfg0 initState "!CREATE".toList addrA 0 gidX noFails).1

/-- State after client A additionally joins `gidX` (lower-case argument). -/
def stB : ServerState :=
  (processPacket cfg0 stA "!JOIN ab3f7k9q".toList addrA 0 gidY noFails).1

/-- State after client B additionally joins `gidX`. -/
def stC : ServerState :=
  (processPacket cfg0 stB "!JOIN AB3F7K9Q".toList addrB 0 gidY noFails).1

theorem reachable_stA : Reachable cfg0 stA :=
  Reachable.pkt Reachable.init (by decide) (by decide)

theorem reachable_stB : Reachable cfg0 stB :=
  Reachable.pkt reachable_stA (by decide) (by decide)

theorem reachable_stC : Reachable cfg0 stC :=
  Reachable.pkt reachable_stB (by decide) (by decide)

/-! ### C1 — membership consistency -/

/-- An address is a member of a live group exactly when the membership
tracker binds it to that group. -/
def MembershipConsistent (st : ServerState) : Prop :=
  ∀ g m a, lookupA st.groups g = some m →
    (a ∈ m ↔ lookupA st.client_group a = some g)

/-- C1.  Membership consistency: in every state reachable by any sequence
of processed packets and sweeps, for every address `a` and live group `g`,
`a` is in the member set of `g` iff the membership tracker maps `a` to `g`
(`client_group[a] == g`); hence every address is a member of at most one
live group, the one its session records. -/
theorem membership_consistency (cfg : Config) (st : ServerState)
    (h : Reachable cfg st) : MembershipConsistent st := by
  obtain ⟨_, _, _, hCGL, hMB, _⟩ := reachable_inv h
  intro g m a hg
  constructor
  · intro ham
    exact hMB (g, m) (lookupA_mem hg) a ham
  · intro hcg
    obtain ⟨m2, hm2, ham⟩ := cgLive_elim hCGL (lookupA_mem hcg)
    rw [hg] at hm2
    injection hm2 with h2
    rw [h2]
    exact ham

/-- Witness for C1 at a concrete reachable two-member state. -/
theorem membership_consistency_witness : MembershipConsistent stC :=
  membership_consistency cfg0 stC reachable_stC

/-! ### C5 — idempotent re-join -/

/-- C5.  Idempotent re-join: when `addr` is already bound to the live
group `g` and the JOIN argument normalizes to `g`, the handler replies
`OK JOINED g` and the only state change is the refresh of the sender's
last-activity timestamp — even when the group is at capacity. -/
theorem idempotent_rejoin (cfg : Config) (st : ServerState) (arg : Bytes)
    (addr : Addr) (now : Time) (g : Gid) (mem : List Addr)
    (hcg : lookupA st.client_group addr = some g)
    (harg : normGid arg = g) (hne : g ≠ [])
    (hlive : lookupA st.groups g = some mem) :
    handle_join cfg st arg addr now =
      ({ st with last_seen := insertA st.last_seen addr now },
        [(addr, Reply.okJoined g)]) := by
  unfold handle_join
  rw [harg, if_neg hne, hlive]
  dsimp only
  rw [hcg]
  rw [if_pos rfl]

/-- Witness for C5: client A re-joins `gidX` in the full two-member state
(the default capacity check would not even matter). -/
theorem idempotent_rejoin_witness :
    handle_join cfg0 stC "  ab3f7k9q ".toList addrA 7 =
      ({ stC with last_seen := insertA stC.last_seen addrA 7 },
        [(addrA, Reply.okJoined gidX)]) :=
  idempotent_rejoin cfg0 stC "  ab3f7k9q ".toList addrA 7 gidX [addrB, addrA]
    (by decide) (by decide) (by decide) (by decide)

/-! ### C9 — group-identifier case insensitivity -/

/-- C9.  JOIN and LEAVE depend on their argument only through its
upper-cased, stripped form: upper-casing the raw argument first never
changes the reply or the state effect, arguments with equal normal forms
are interchangeable, and in every reachable state all stored group
identifiers (registry keys and tracked bindings) are fixed by
upper-casing. -/
theorem gid_case_insensitive :
    (∀ cfg st arg addr now, handle_join cfg st (pyUpper arg) addr now =
      handle_join cfg st arg addr now) ∧
    (∀ st arg addr now, handle_leave st (pyUpper arg) addr now =
      handle_leave st arg addr now) ∧
    (∀ cfg st arg arg2 addr now, normGid arg = normGid arg2 →
      handle_join cfg st arg addr now = handle_join cfg st arg2 addr now) ∧
    (∀ st arg arg2 addr now, normGid arg = normGid arg2 →
      handle_leave st arg addr now = handle_leave st arg2 addr now) ∧
    (∀ cfg st, Reachable cfg st →
      (∀ p ∈ st.client_group, pyUpper p.2 = p.2) ∧
      (∀ q ∈ st.groups, pyUpper q.1 = q.1)) := by
  have hjoin : ∀ cfg st arg arg2 (addr : Addr) (now : Time),
      normGid arg = normGid arg2 →
      handle_join cfg st arg addr now = handle_join cfg st arg2 addr now := by
    intro cfg st arg arg2 addr now h
    unfold handle_join
    rw [h]
  have hleave : ∀ st arg arg2 (addr : Addr) (now : Time),
      normGid arg = normGid arg2 →
      handle_leave st arg addr now = handle_leave st arg2 addr now := by
    intro st arg arg2 addr now h
    unfold handle_leave
    rw [h]
  refine ⟨?_, ?_, hjoin, hleave, ?_⟩
  · intro cfg st arg addr now
    exact hjoin cfg st (pyUpper arg) arg addr now (normGid_pyUpper arg)
  · intro st arg addr now
    exact hleave st (pyUpper arg) arg addr now (normGid_pyUpper arg)
  · intro cfg st h
    obtain ⟨_, hGV, hCGV, _⟩ := reachable_inv h
    exact ⟨fun p hp => validGid_pyUpper_fixed (hCGV p hp),
      fun q hq => validGid_pyUpper_fixed (hGV q hq)⟩

/-- Witness for C9: lower-case and upper-case JOIN arguments act
identically on a concrete state, and the reachable state `stC` stores only
upper-case identifiers. -/
theorem gid_case_insensitive_witness :
    handle_join cfg0 stB (pyUpper "ab3f7k9q".toList) addrB 0 =
      handle_join cfg0 stB "ab3f7k9q".toList addrB 0 ∧
    (∀ p ∈ stC.client_group, pyUpper p.2 = p.2) :=
  ⟨gid_case_insensitive.1 cfg0 stB "ab3f7k9q".toList addrB 0,
    (gid_case_insensitive.2.2.2.2 cfg0 stC reachable_stC).1⟩

/-! ### C10 — exact-case command token matching -/

/-- C10.  Commands are matched byte-for-byte against the five upper-case
tokens: any `!`-prefixed packet whose extracted token is not exactly one
of CREATE, JOIN, LEAVE, PING, WHO — including the empty token and tokens
longer than the longest command name — is answered with
`ERR BAD_CMD UnknownCommand` and changes no state. -/
theorem unknown_command (cfg : Config) (st : ServerState) (data : Bytes)
    (addr : Addr) (now : Time) (freshGid : Gid) (fails : Addr → Bool)
    (hbang : (data.take (cfg.bufsize + 1)).take 1 = ['!'])
    (hsize : ¬ MAX_PAYLOAD < (data.take (cfg.bufsize + 1)).length)
    (htok : (split_cmd_arg (data.take (cfg.bufsize + 1))).1 ∉
      [CREATE_CMD, JOIN_CMD, LEAVE_CMD, PING_CMD, WHO_CMD]) :
    processPacket cfg st data addr now freshGid fails =
      (st, [(addr, Reply.err ERR_BAD_CMD "UnknownCommand".toList)]) := by
  have hne : data.take (cfg.bufsize + 1) ≠ [] := by
    intro h
    rw [h] at hbang
    simp at hbang
  simp only [List.mem_cons, List.not_mem_nil, or_false, not_or] at htok
  obtain ⟨hC, hJ, hL, hP, hW⟩ := htok
  unfold processPacket
  rw [if_neg hne, if_neg hsize, if_neg (by simpa using hbang)]
  unfold handle_command
  by_cases hnil : (split_cmd_arg (data.take (cfg.bufsize + 1))).1 = []
  · rw [if_pos hnil]
  · rw [if_neg hnil]
    by_cases hlong : MAX_CMD_LEN < (split_cmd_arg (data.take (cfg.bufsize + 1))).1.length
    · rw [if_pos hlong]
    · rw [if_neg hlong, if_neg hC, if_neg hJ, if_neg hL, if_neg hP, if_neg hW]

/-- Witness for C10: a lower-case `!join` is rejected as an unknown
command, resolving the command-case question to exact-case matching. -/
theorem unknown_command_witness :
    processPacket cfg0 stC "!join AB3F7K9Q".toList addrB 3 gidY noFails =
      (stC, [(addrB, Reply.err ERR_BAD_CMD "UnknownCommand".toList)]) :=
  unknown_command cfg0 stC "!join AB3F7K9Q".toList addrB 3 gidY noFails
    (by decide) (by decide) (by decide)

/-! ### C2 — capacity bound with atomic rejection -/

/-- Configuration with a global group capacity of one, for the witness. -/
def cfgCap1 : Config := { max_group_size := some 1 }

/-- A one-member, at-capacity state for the witness. -/
def stFull : ServerState :=
  { groups := [(gidX, [addrA])],
    group_creator := [(gidX, addrA)],
    creator_active_groups := [(addrA, [gidX])],
    client_group := [(addrA, gidX)],
    last_seen := [(addrA, 0)] }

/-- C2.  Capacity bound with atomic rejection: a JOIN for a live group
whose member count equals its effective capacity, from an address not
already bound to it, replies `ERR GROUP_FULL <id>` and leaves the whole
server state unchanged; and in every reachable state no group's member
count exceeds its effective capacity, so no successful JOIN ever
oversubscribes a group. -/
theorem capacity_bound :
    (∀ (cfg : Config) (st : ServerState) (g : Gid) (mem : List Addr) (c : Nat)
        (addr : Addr) (arg : Bytes) (now : Time),
      lookupA st.groups g = some mem → cap_for cfg g = some c →
      mem.length = c → normGid arg = g → g ≠ [] →
      lookupA st.client_group addr ≠ some g →
      handle_join cfg st arg addr now =
        (st, [(addr, Reply.err ERR_GROUP_FULL g)])) ∧
    (∀ (cfg : Config) (st : ServerState), Reachable cfg st →
      ∀ g m c, lookupA st.groups g = some m → cap_for cfg g = some c →
        m.length ≤ c) := by
  constructor
  · intro cfg st g mem c addr arg now hg hcap hlen harg hne hnb
    unfold handle_join
    rw [harg, if_neg hne, hg]
    dsimp only
    rw [if_neg hnb, hcap]
    dsimp only
    rw [if_pos (by rw [hlen]; simp)]
  · intro cfg st h g m c hg hcap
    obtain ⟨_, _, _, _, _, _, _, hCB, _⟩ := reachable_inv h
    exact hCB (g, m) (lookupA_mem hg) c hcap

/-- Witness for C2: with capacity one and one member, a JOIN by a second
client is rejected atomically; and the reachable state `stC` respects all
capacities. -/
theorem capacity_bound_witness :
    handle_join cfgCap1 stFull "AB3F7K9Q".toList addrB 5 =
      (stFull, [(addrB, Reply.err ERR_GROUP_FULL gidX)]) ∧
    (∀ g m c, lookupA stC.groups g = some m → cap_for cfg0 g = some c →
      m.length ≤ c) :=
  ⟨capacity_bound.1 cfgCap1 stFull gidX [addrA] 1 addrB "AB3F7K9Q".toList 5
      (by decide) (by decide) (by decide) (by decide) (by decide) (by decide),
    capacity_bound.2 cfg0 stC reachable_stC⟩

/-! ### C3 — creator quota bound -/

/-- The live groups a creator currently owns. -/
def ownedLive (st : ServerState) (c : Addr) : List Gid :=
  (keysA st.groups).filter (fun g => lookupA st.group_creator g = some c)

/-- A third allocator output. -/
def gidZ : Gid := "GHJK5678".toList

/-- A state whose creator `addrA` has exhausted the default quota of
three groups. -/
def stQuota : ServerState :=
  { groups := [(gidX, []), (gidY, []), (gidZ, [])],
    group_creator := [(gidX, addrA), (gidY, addrA), (gidZ, addrA)],
    empty_since := [(gidX, 0), (gidY, 0), (gidZ, 0)],
    creator_active_groups := [(addrA, [gidX, gidY, gidZ])] }

/-- A fourth allocator output. -/
def gidW : Gid := "MNPQ2345".toList

/-- C3.  Creator quota bound: in every reachable state no creator owns
more live groups than the configured maximum; a CREATE issued while the
creator already owns that many live groups replies
`ERR CLIENT_LIMIT <used>/<cap>` and changes nothing; and destroying a
group removes its identifier from its creator's quota set, releasing one
slot. -/
theorem quota_bound :
    (∀ (cfg : Config) (st : ServerState), Reachable cfg st →
      ∀ creator, (ownedLive st creator).length ≤ cfg.max_groups_per_client) ∧
    (∀ (cfg : Config) (st : ServerState) (gid : Gid) (addr : Addr) (now : Time),
      ((lookupA st.creator_active_groups addr).getD []).length =
        cfg.max_groups_per_client →
      handle_create cfg st gid addr now =
        (st, [(addr, Reply.err ERR_CLIENT_LIMIT
          (toString ((lookupA st.creator_active_groups addr).getD []).length ++
            "/" ++ toString cfg.max_groups_per_client).toList)])) ∧
    (∀ (st : ServerState) (gid : Gid) (creator : Addr),
      lookupA st.group_creator gid = some creator →
      ∀ s2, lookupA (remove_group st gid).creator_active_groups creator =
        some s2 → gid ∉ s2) ∧
    (∀ (st : ServerState) (gid : Gid) (creator : Addr) (s : List Gid),
      lookupA st.group_creator gid = some creator →
      lookupA st.creator_active_groups creator = some s → s.Nodup → gid ∈ s →
      ((lookupA (remove_group st gid).creator_active_groups creator).getD
        []).length = s.length - 1) := by
  refine ⟨?_, ?_, ?_, ?_⟩
  · intro cfg st h creator
    obtain ⟨⟨ndG, _⟩, _, _, _, _, _, hQB, _, _, _, hCC⟩ := reachable_inv h
    rcases hs : lookupA st.creator_active_groups creator with _ | s
    · have hnil : ownedLive st creator = [] := by
        rw [List.eq_nil_iff_forall_not_mem]
        intro g hgmem
        obtain ⟨hgk, hgc⟩ := List.mem_filter.mp hgmem
        have hgc2 : lookupA st.group_creator g = some creator :=
          of_decide_eq_true hgc
        have := hCC (g, creator) (lookupA_mem hgc2) hgk
        rw [hs] at this
        simp at this
      rw [hnil]
      simp
    · have hsub : ∀ g ∈ ownedLive st creator, g ∈ s := by
        intro g hgmem
        obtain ⟨hgk, hgc⟩ := List.mem_filter.mp hgmem
        have hgc2 : lookupA st.group_creator g = some creator :=
          of_decide_eq_true hgc
        have := hCC (g, creator) (lookupA_mem hgc2) hgk
        rw [hs] at this
        simpa using this
      have hnd : (ownedLive st creator).Nodup := List.Nodup.filter _ ndG
      calc (ownedLive st creator).length
          = (ownedLive st creator).toFinset.card :=
            (List.toFinset_card_of_nodup hnd).symm
        _ ≤ s.toFinset.card := by
            apply Finset.card_le_card
            intro g hg
            rw [List.mem_toFinset] at hg ⊢
            exact hsub g hg
        _ ≤ s.length := List.toFinset_card_le s
        _ ≤ cfg.max_groups_per_client := hQB (creator, s) (lookupA_mem hs)
  · intro cfg st gid addr now hused
    unfold handle_create
    rw [if_pos (le_of_eq hused.symm)]
  · intro st gid creator hgc s2 hs2
    rcases hcag : lookupA st.creator_active_groups creator with _ | s
    · rw [remove_group_cag_none hgc hcag] at hs2
      dsimp only at hs2
      rw [hcag] at hs2
      cases hs2
    · rw [remove_group_cag_some hgc hcag] at hs2
      by_cases hdisc : setDiscard s gid = []
      · rw [if_pos hdisc] at hs2
        dsimp only at hs2
        rw [lookupA_eraseA, if_pos rfl] at hs2
        cases hs2
      · rw [if_neg hdisc] at hs2
        dsimp only at hs2
        rw [lookupA_insertA, if_pos rfl] at hs2
        injection hs2 with hs3
        rw [← hs3]
        intro hmem
        exact (mem_setDiscard.mp hmem).2 rfl
  · intro st gid creator s hgc hcag hnd hmem
    have herase : setDiscard s gid = s.erase gid := by
      unfold setDiscard
      rw [List.Nodup.erase_eq_filter hnd gid]
      apply List.filter_congr
      intro y hy
      by_cases h : y = gid <;> simp [h]
    have hlen : (setDiscard s gid).length = s.length - 1 := by
      rw [herase]
      exact List.length_erase_of_mem hmem
    rw [remove_group_cag_some hgc hcag]
    by_cases hdisc : setDiscard s gid = []
    · rw [if_pos hdisc]
      dsimp only
      rw [lookupA_eraseA, if_pos rfl]
      rw [hdisc] at hlen
      simpa using hlen
    · rw [if_neg hdisc]
      dsimp only
      rw [lookupA_insertA, if_pos rfl]
      simpa using hlen

/-- Witness for C3: the reachable state `stC` respects the quota; a
fourth CREATE by the exhausted creator of `stQuota` is rejected with
`CLIENT_LIMIT 3/3`; and removing `gidX` shrinks the quota set. -/
theorem quota_bound_witness :
    (∀ creator, (ownedLive stC creator).length ≤ cfg0.max_groups_per_client) ∧
    handle_create cfg0 stQuota gidW addrA 9 =
      (stQuota, [(addrA, Reply.err ERR_CLIENT_LIMIT ("3/3").toList)]) ∧
    (∀ s2, lookupA (remove_group stQuota gidX).creator_active_groups addrA =
      some s2 → gidX ∉ s2) ∧
    ((lookupA (remove_group stQuota gidX).creator_active_groups addrA).getD
      []).length = 3 - 1 :=
  ⟨quota_bound.1 cfg0 stC reachable_stC,
    quota_bound.2.1 cfg0 stQuota gidW addrA 9 (by decide),
    quota_bound.2.2.1 stQuota gidX addrA (by decide),
    quota_bound.2.2.2 stQuota gidX addrA [gidX, gidY, gidZ] (by decide)
      (by decide) (by decide) (by decide)⟩

/-! ### C4 — activity refresh on success (corrected) -/

/-- Counterexample to C4 as stated: in the reachable two-member state, a
WHO from the bound client B at time 5 succeeds with `OK WHO`, yet B's
last-activity timestamp stays 0 — a successful WHO does not refresh it. -/
theorem activity_refresh_counterexample :
    (processPacket cfg0 stC "!WHO".toList addrB 5 gidY noFails).2 =
      [(addrB, Reply.okWho gidX 2)] ∧
    lookupA (processPacket cfg0 stC "!WHO".toList addrB 5 gidY
      noFails).1.last_seen addrB = some 0 ∧
    (0 : Time) ≠ 5 := by decide

/-- C4 (amended).  A successful JOIN (`OK JOINED`) or PING (`PONG`) sets
the sender's last-activity timestamp to `now`; a successful LEAVE removes
the whole session record; but WHO leaves the state — and CREATE the
last-seen registry — entirely unchanged, successful or not. -/
theorem activity_refresh_on_success :
    (∀ (cfg : Config) (st : ServerState) (arg : Bytes) (addr : Addr)
        (now : Time) (g : Gid),
      (addr, Reply.okJoined g) ∈ (handle_join cfg st arg addr now).2 →
      lookupA (handle_join cfg st arg addr now).1.last_seen addr = some now) ∧
    (∀ (cfg : Config) (st : ServerState) (addr : Addr) (now : Time) (hb : Time),
      (addr, Reply.pong hb) ∈ (handle_ping cfg st addr now).2 →
      lookupA (handle_ping cfg st addr now).1.last_seen addr = some now) ∧
    (∀ (st : ServerState) (arg : Bytes) (addr : Addr) (now : Time) (g : Gid),
      (addr, Reply.okLeft g) ∈ (handle_leave st arg addr now).2 →
      lookupA (handle_leave st arg addr now).1.last_seen addr = none) ∧
    (∀ (st : ServerState) (addr : Addr), (handle_who st addr).1 = st) ∧
    (∀ (cfg : Config) (st : ServerState) (gid : Gid) (addr : Addr) (now : Time),
      (handle_create cfg st gid addr now).1.last_seen = st.last_seen) := by
  refine ⟨?_, ?_, ?_, handle_who_state, ?_⟩
  · intro cfg st arg addr now g hmem
    unfold handle_join at hmem ⊢
    by_cases hempty : normGid arg = []
    · rw [if_pos hempty] at hmem
      simp at hmem
    · rw [if_neg hempty] at hmem ⊢
      rcases hg : lookupA st.groups (normGid arg) with _ | members
      · rw [hg] at hmem
        dsimp only at hmem
        simp at hmem
      · rw [hg] at hmem
        dsimp only at hmem ⊢
        by_cases hsame : lookupA st.client_group addr = some (normGid arg)
        · rw [if_pos hsame] at hmem ⊢
          rw [lookupA_insertA, if_pos rfl]
        · rw [if_neg hsame] at hmem ⊢
          by_cases hcap : (match cap_for cfg (normGid arg) with
              | some cap => decide (cap ≤ members.length)
              | none => false) = true
          · rw [if_pos hcap] at hmem
            simp at hmem
          · rw [if_neg hcap] at hmem ⊢
            dsimp only at hmem ⊢
            rw [lookupA_insertA, if_pos rfl]
  · intro cfg st addr now hb hmem
    unfold handle_ping at hmem ⊢
    rcases hcg : lookupA st.client_group addr with _ | gid
    · rw [hcg] at hmem
      dsimp only at hmem
      simp at hmem
    · rw [hcg] at hmem
      dsimp only at hmem ⊢
      by_cases hcond : gid = [] ∨ lookupA st.groups gid = none
      · rw [if_pos hcond] at hmem
        simp at hmem
      · rw [if_neg hcond] at hmem ⊢
        rw [lookupA_insertA, if_pos rfl]
  · intro st arg addr now g hmem
    unfold handle_leave at hmem ⊢
    by_cases hempty : normGid arg = []
    · rw [if_pos hempty] at hmem
      simp at hmem
    · rw [if_neg hempty] at hmem ⊢
      rcases hcg : lookupA st.client_group addr with _ | cur
      · rw [hcg] at hmem
        dsimp only at hmem
        simp at hmem
      · rw [hcg] at hmem
        dsimp only at hmem ⊢
        by_cases hcond : cur = [] ∨ pyUpper cur ≠ normGid arg
        · rw [if_pos hcond] at hmem
          simp at hmem
        · rw [if_neg hcond] at hmem ⊢
          dsimp only at hmem ⊢
          rw [lookupA_eraseA, if_pos rfl]
  · intro cfg st gid addr now
    unfold handle_create
    by_cases hlim : cfg.max_groups_per_client ≤
        ((lookupA st.creator_active_groups addr).getD []).length
    · rw [if_pos hlim]
    · rw [if_neg hlim]

/-- Witness for C4 (amended): a successful PING in the reachable state
`stC` refreshes the sender's timestamp to the current loop time. -/
theorem activity_refresh_witness :
    lookupA (handle_ping cfg0 stC addrA 9).1.last_seen addrA = some 9 :=
  activity_refresh_on_success.2.1 cfg0 stC addrA 9
    cfg0.suggested_heartbeat_sec (by decide)

/-! ### C6 — oversize rejection (corrected) -/

/-- Configuration with a receive limit smaller than the fixed cap. -/
def cfgSmall : Config := { bufsize := 2 }

/-- Counterexample to C6 as stated: with a configured receive limit of 2
bytes, the 4-byte datagram `abcd` exceeds the configured maximum payload
size, yet the server does not reply `ERR TOO_LARGE` — truncation to
`bufsize + 1` bytes keeps the packet under the fixed `MAX_PAYLOAD` guard
and it is processed as a payload (`ERR NOT_IN_GROUP` here). -/
theorem oversize_counterexample :
    cfgSmall.bufsize < "abcd".toList.length ∧
    (processPacket cfgSmall initState "abcd".toList addrA 0 gidX noFails).2 =
      [(addrA, Reply.err ERR_NOT_IN_GROUP "JoinFirstUseJOIN".toList)] := by
  decide

/-- C6 (amended).  The oversize guard compares the received bytes (the
datagram truncated to `bufsize + 1`) against the fixed hard cap
`MAX_PAYLOAD = 4096`, not against the configurable receive limit: whenever
the received length exceeds `MAX_PAYLOAD` the server replies
`ERR TOO_LARGE PayloadTooLarge`, forwards nothing, parses nothing, and
changes no state; with the default `bufsize = MAX_PAYLOAD` this rejects
exactly the datagrams longer than the limit. -/
theorem oversize_rejection :
    (∀ (cfg : Config) (st : ServerState) (data : Bytes) (addr : Addr)
        (now : Time) (freshGid : Gid) (fails : Addr → Bool),
      MAX_PAYLOAD < (data.take (cfg.bufsize + 1)).length →
      processPacket cfg st data addr now freshGid fails =
        (st, [(addr, Reply.err ERR_TOO_LARGE "PayloadTooLarge".toList)])) ∧
    (∀ (cfg : Config) (st : ServerState) (data : Bytes) (addr : Addr)
        (now : Time) (freshGid : Gid) (fails : Addr → Bool),
      cfg.bufsize = MAX_PAYLOAD → MAX_PAYLOAD < data.length →
      processPacket cfg st data addr now freshGid fails =
        (st, [(addr, Reply.err ERR_TOO_LARGE "PayloadTooLarge".toList)])) := by
  have hpart1 : ∀ (cfg : Config) (st : ServerState) (data : Bytes) (addr : Addr)
      (now : Time) (freshGid : Gid) (fails : Addr → Bool),
      MAX_PAYLOAD < (data.take (cfg.bufsize + 1)).length →
      processPacket cfg st data addr now freshGid fails =
        (st, [(addr, Reply.err ERR_TOO_LARGE "PayloadTooLarge".toList)]) := by
    intro cfg st data addr now freshGid fails hlen
    have hne : data.take (cfg.bufsize + 1) ≠ [] := by
      intro h
      rw [h] at hlen
      simp [MAX_PAYLOAD] at hlen
    unfold processPacket
    rw [if_neg hne, if_pos hlen]
  refine ⟨hpart1, ?_⟩
  intro cfg st data addr now freshGid fails hbuf hlen
  apply hpart1
  rw [List.length_take, hbuf]
  unfold MAX_PAYLOAD at hlen ⊢
  omega

/-- Witness for C6 (amended): a 5000-byte datagram under the default
configuration draws `TOO_LARGE` and leaves the state untouched. -/
theorem oversize_rejection_witness :
    processPacket cfg0 stC (List.replicate 5000 'x') addrA 3 gidY noFails =
      (stC, [(addrA, Reply.err ERR_TOO_LARGE "PayloadTooLarge".toList)]) :=
  oversize_rejection.2 cfg0 stC (List.replicate 5000 'x') addrA 3 gidY noFails
    (by decide) (by rw [List.length_replicate]; decide)

/-! ### C8 — fan-out exclusion and fidelity -/

/-- C8.  Fan-out: a non-oversize payload from a bound member of a live
group is sent byte-for-byte to exactly the other members whose `sendto`
succeeds and never echoed to the sender; the sender's activity is
refreshed; every member whose send fails is silently removed from the
member set and the membership tracker; and the group's empty-timer is
recomputed from the surviving member set. -/
theorem fanout_exclusion (st : ServerState) (packet : Bytes) (addr : Addr)
    (now : Time) (fails : Addr → Bool) (g : Gid) (m : List Addr)
    (hlen : ¬ MAX_PAYLOAD < packet.length)
    (hcg : lookupA st.client_group addr = some g) (hne : g ≠ [])
    (hm : lookupA st.groups g = some m) :
    ((handle_payload st packet addr now fails).2 =
      (m.filter (fun p => p ≠ addr ∧ fails p = false)).map
        (fun p => (p, Reply.fwd packet))) ∧
    (∀ r, (addr, r) ∉ (handle_payload st packet addr now fails).2) ∧
    lookupA (handle_payload st packet addr now fails).1.last_seen addr =
      some now ∧
    lookupA (handle_payload st packet addr now fails).1.groups g =
      some (m.filter
        (fun p => p ∉ m.filter (fun r => r ≠ addr ∧ fails r = true))) ∧
    (∀ p ∈ m, p ≠ addr → fails p = true →
      lookupA (handle_payload st packet addr now fails).1.client_group p =
        none ∧
      lookupA (handle_payload st packet addr now fails).1.last_seen p = none) ∧
    lookupA (handle_payload st packet addr now fails).1.empty_since g =
      (if m.filter (fun p => p ∉ m.filter (fun r => r ≠ addr ∧ fails r = true))
        = [] then some now else none) := by
  have haddrP : addr ∉ m.filter (fun r => r ≠ addr ∧ fails r = true) := by
    intro hx
    have := of_decide_eq_true (List.mem_filter.mp hx).2
    exact this.1 rfl
  unfold handle_payload
  rw [if_neg hlen, hcg]
  dsimp only
  rw [hm, if_neg (by simp [hne])]
  dsimp only
  simp only [Option.getD_some]
  refine ⟨by trivial, ?_, ?_, ?_, ?_, ?_⟩
  · intro r hmem
    rcases List.mem_map.mp hmem with ⟨p, hp, heq⟩
    have hpne : p ≠ addr := (of_decide_eq_true (List.mem_filter.mp hp).2).1
    apply hpne
    injection heq with h1 h2
  · rw [mark_last_seen]
    dsimp only
    rw [lookupA_eraseKeys2, if_neg haddrP, lookupA_insertA, if_pos rfl]
  · rw [mark_groups]
    dsimp only
    rw [lookupA_insertA, if_pos rfl]
  · intro p hp hpa hpf
    have hpP : p ∈ m.filter (fun r => r ≠ addr ∧ fails r = true) :=
      List.mem_filter.mpr ⟨hp, decide_eq_true ⟨hpa, hpf⟩⟩
    constructor
    · rw [mark_client_group]
      dsimp only
      rw [lookupA_eraseKeys2, if_pos hpP]
    · rw [mark_last_seen]
      dsimp only
      rw [lookupA_eraseKeys2, if_pos hpP]
  · rw [mark_empty_since]
    dsimp only
    rw [lookupA_insertA, if_pos rfl]
    by_cases hk : m.filter
        (fun p => p ∉ m.filter (fun r => r ≠ addr ∧ fails r = true)) = []
    · rw [if_pos hk, if_pos (by rw [hk]), lookupA_insertA, if_pos rfl]
    · rw [if_neg hk, if_neg (by simpa using hk), lookupA_eraseA, if_pos rfl]

/-- Witness for C8: client A's payload in the two-member reachable state
is delivered to B only, A's activity is refreshed, and the member set
survives intact. -/
theorem fanout_exclusion_witness :
    ((handle_payload stC "hello".toList addrA 4 noFails).2 =
      ([addrB, addrA].filter (fun p => p ≠ addrA ∧ noFails p = false)).map
        (fun p => (p, Reply.fwd "hello".toList))) ∧
    (∀ r, (addrA, r) ∉ (handle_payload stC "hello".toList addrA 4 noFails).2) ∧
    lookupA (handle_payload stC "hello".toList addrA 4 noFails).1.last_seen
      addrA = some 4 :=
  have h := fanout_exclusion stC "hello".toList addrA 4 noFails gidX
    [addrB, addrA] (by decide) (by decide) (by decide) (by decide)
  ⟨h.1, h.2.1, h.2.2.1⟩

/-! ### C7 — TTL eviction at sweep -/

theorem remove_group_groups (s : ServerState) (gid : Gid) :
    (remove_group s gid).groups = eraseA s.groups gid := by
  rcases hgc : lookupA s.group_creator gid with _ | creator
  · rw [remove_group_gc_none hgc]
  · rcases hcag : lookupA s.creator_active_groups creator with _ | s2
    · rw [remove_group_cag_none hgc hcag]
    · rw [remove_group_cag_some hgc hcag]
      by_cases hdisc : setDiscard s2 gid = []
      · rw [if_pos hdisc]
      · rw [if_neg hdisc]

theorem sweepStep2_lookup_other (cutoff : Time) (s : ServerState)
    (e : Gid × Time) (g : Gid) (h : lookupA s.groups g ≠ some []) :
    lookupA (sweepStep2 cutoff s e).groups g = lookupA s.groups g := by
  unfold sweepStep2
  by_cases hc : e.2 < cutoff ∧ lookupA s.groups e.1 = some ([] : List Addr)
  · rw [if_pos hc, remove_group_groups, lookupA_eraseA]
    by_cases he : e.1 = g
    · exact absurd (he ▸ hc.2) h
    · rw [if_neg he]
  · rw [if_neg hc]

theorem pass2_none (cutoff : Time) (g : Gid) :
    ∀ (L : List (Gid × Time)) (s : ServerState), lookupA s.groups g = none →
      lookupA (L.foldl (sweepStep2 cutoff) s).groups g = none := by
  intro L
  induction L with
  | nil => intro s h; exact h
  | cons e L ih =>
      intro s h
      apply ih
      rw [sweepStep2_lookup_other cutoff s e g (by rw [h]; intro hx; cases hx)]
      exact h

theorem pass2_removes (cutoff : Time) (g : Gid) (t : Time) :
    ∀ (L : List (Gid × Time)) (s : ServerState), (g, t) ∈ L → t < cutoff →
      (lookupA s.groups g = some [] ∨ lookupA s.groups g = none) →
      lookupA (L.foldl (sweepStep2 cutoff) s).groups g = none := by
  intro L
  induction L with
  | nil =>
      intro s h
      simp at h
  | cons e L ih =>
      intro s hmem ht hdis
      rcases hdis with hsome | hnone
      · rcases List.mem_cons.mp hmem with heq | hmem2
        · have hfire : sweepStep2 cutoff s e = remove_group s e.1 := by
            unfold sweepStep2
            rw [if_pos (by rw [← heq]; exact ⟨ht, hsome⟩)]
          rw [List.foldl_cons]
          apply pass2_none
          rw [hfire, remove_group_groups, lookupA_eraseA, ← heq, if_pos rfl]
        · apply ih _ hmem2 ht
          unfold sweepStep2
          by_cases hc : e.2 < cutoff ∧ lookupA s.groups e.1 = some ([] : List Addr)
          · rw [if_pos hc, remove_group_groups, lookupA_eraseA]
            by_cases he : e.1 = g
            · rw [if_pos he]
              exact Or.inr rfl
            · rw [if_neg he]
              exact Or.inl hsome
          · rw [if_neg hc]
            exact Or.inl hsome
      · exact pass2_none cutoff g (e :: L) s hnone

theorem pass2_keeps (cutoff : Time) (g : Gid) (m : List Addr) :
    ∀ (L : List (Gid × Time)) (s : ServerState), lookupA s.groups g = some m →
      (∀ t2, (g, t2) ∈ L → ¬ t2 < cutoff ∨ m ≠ []) →
      lookupA (L.foldl (sweepStep2 cutoff) s).groups g = some m := by
  intro L
  induction L with
  | nil => intro s h _; exact h
  | cons e L ih =>
      intro s hg hL
      apply ih
      · unfold sweepStep2
        by_cases hc : e.2 < cutoff ∧ lookupA s.groups e.1 = some ([] : List Addr)
        · by_cases he : e.1 = g
          · exfalso
            rw [he, hg] at hc
            have hm : m = [] := by injection hc.2
            have hmemg : (g, e.2) ∈ e :: L := by
              rw [← he]
              exact List.mem_cons_self e L
            rcases hL e.2 hmemg with h1 | h1
            · exact h1 hc.1
            · exact h1 hm
          · rw [if_pos hc, remove_group_groups, lookupA_eraseA, if_neg he]
            exact hg
        · rw [if_neg hc]
          exact hg
      · intro t2 ht2
        exact hL t2 (List.mem_cons_of_mem e ht2)

theorem sweepStep1_untouched (now cutoff : Time) (g : Gid) (s : ServerState)
    (e : Addr × Time) (hnb : ∀ a, lookupA s.client_group a ≠ some g) :
    lookupA (sweepStep1 now cutoff s e).groups g = lookupA s.groups g ∧
    lookupA (sweepStep1 now cutoff s e).empty_since g =
      lookupA s.empty_since g ∧
    (∀ a, lookupA (sweepStep1 now cutoff s e).client_group a ≠ some g) := by
  have herased : ∀ a, lookupA (eraseA s.client_group e.1) a ≠ some g := by
    intro a
    rw [lookupA_eraseA]
    by_cases he : e.1 = a
    · simp [he]
    · rw [if_neg he]
      exact hnb a
  unfold sweepStep1
  by_cases hstale : e.2 < cutoff
  · rw [if_pos hstale]
    rcases hcg : lookupA s.client_group e.1 with _ | gid
    · exact ⟨rfl, rfl, herased⟩
    · have hgid : gid ≠ g := by
        intro h
        exact hnb e.1 (by rw [hcg, h])
      dsimp only
      by_cases hgnil : gid ≠ []
      · rw [if_pos hgnil]
        rcases hg2 : lookupA s.groups gid with _ | mg
        · exact ⟨rfl, rfl, herased⟩
        · refine ⟨?_, ?_, ?_⟩
          · rw [mark_groups]
            dsimp only
            rw [lookupA_insertA, if_neg hgid]
          · rw [mark_empty_since]
            dsimp only
            split_ifs
            · rw [lookupA_insertA, if_neg hgid]
            · rw [lookupA_eraseA, if_neg hgid]
          · intro a
            rw [mark_client_group]
            exact herased a
      · rw [if_neg hgnil]
        exact ⟨rfl, rfl, herased⟩
  · rw [if_neg hstale]
    exact ⟨rfl, rfl, hnb⟩

theorem pass1_untouched (now cutoff : Time) (g : Gid) :
    ∀ (L : List (Addr × Time)) (s : ServerState),
      (∀ a, lookupA s.client_group a ≠ some g) →
      lookupA (L.foldl (sweepStep1 now cutoff) s).groups g =
        lookupA s.groups g ∧
      lookupA (L.foldl (sweepStep1 now cutoff) s).empty_since g =
        lookupA s.empty_since g ∧
      (∀ a, lookupA (L.foldl (sweepStep1 now cutoff) s).client_group a ≠
        some g) := by
  intro L
  induction L with
  | nil => intro s h; exact ⟨rfl, rfl, h⟩
  | cons e L ih =>
      intro s h
      obtain ⟨s1, s2, s3⟩ := sweepStep1_untouched now cutoff g s e h
      obtain ⟨h1, h2, h3⟩ := ih (sweepStep1 now cutoff s e) s3
      exact ⟨h1.trans s1, h2.trans s2, h3⟩

theorem sweepStep1_evolution (now cutoff : Time) (g : Gid) (E : Option Time)
    (m : List Addr) (s : ServerState) (e : Addr × Time)
    (h : ∃ m2, lookupA s.groups g = some m2 ∧
      ((lookupA s.empty_since g = E ∧ m2 = m) ∨
        lookupA s.empty_since g = (if m2 = [] then some now else none))) :
    ∃ m2, lookupA (sweepStep1 now cutoff s e).groups g = some m2 ∧
      ((lookupA (sweepStep1 now cutoff s e).empty_since g = E ∧ m2 = m) ∨
        lookupA (sweepStep1 now cutoff s e).empty_since g =
          (if m2 = [] then some now else none)) := by
  obtain ⟨m2, hm2, hdis⟩ := h
  unfold sweepStep1
  by_cases hstale : e.2 < cutoff
  · rw [if_pos hstale]
    rcases hcg : lookupA s.client_group e.1 with _ | gid
    · exact ⟨m2, hm2, hdis⟩
    · dsimp only
      by_cases hgnil : gid ≠ []
      · rw [if_pos hgnil]
        rcases hg2 : lookupA s.groups gid with _ | mg
        · exact ⟨m2, hm2, hdis⟩
        · by_cases hgg : gid = g
          · subst hgg
            have hmg : mg = m2 := by
              rw [hm2] at hg2
              injection hg2 with h2
              exact h2.symm
            subst hmg
            have hcondL : lookupA (insertA s.groups gid (setDiscard mg e.1))
                gid = some (setDiscard mg e.1) := by
              rw [lookupA_insertA, if_pos rfl]
            refine ⟨setDiscard mg e.1, ?_, Or.inr ?_⟩
            · rw [mark_groups]
              dsimp only
              exact hcondL
            · rw [mark_empty_since]
              dsimp only
              by_cases hdisc : setDiscard mg e.1 = []
              · have hcond : lookupA (insertA s.groups gid (setDiscard mg e.1))
                    gid = some ([] : List Addr) := by
                  rw [hcondL, hdisc]
                rw [if_pos hcond, lookupA_insertA, if_pos rfl, if_pos hdisc]
              · have hcond : ¬ lookupA (insertA s.groups gid (setDiscard mg e.1))
                    gid = some ([] : List Addr) := by
                  rw [hcondL]
                  simpa using hdisc
                rw [if_neg hcond, lookupA_eraseA, if_pos rfl, if_neg hdisc]
          · refine ⟨m2, ?_, ?_⟩
            · rw [mark_groups]
              dsimp only
              rw [lookupA_insertA, if_neg hgg]
              exact hm2
            · rw [mark_empty_since]
              dsimp only
              by_cases hco : lookupA (insertA s.groups gid (setDiscard mg e.1))
                  gid = some ([] : List Addr)
              · rw [if_pos hco, lookupA_insertA, if_neg hgg]
                exact hdis
              · rw [if_neg hco, lookupA_eraseA, if_neg hgg]
                exact hdis
      · rw [if_neg hgnil]
        exact ⟨m2, hm2, hdis⟩
  · rw [if_neg hstale]
    exact ⟨m2, hm2, hdis⟩

/-- C7.  TTL eviction at sweep: under the server invariant, every group
that has an empty-since timestamp older than the sweep cutoff
(`now - empty_group_ttl_sec`) is removed from the registry by `sweep`;
every group whose empty-since timestamp is within the TTL survives the
sweep (still registered, still empty); and a group that holds at least
one member when the sweep starts is never removed by it. -/
theorem ttl_eviction (cfg : Config) (st : ServerState) (now : Time)
    (hInv : Inv cfg st) (httl : 0 ≤ cfg.empty_group_ttl_sec) :
    (∀ g t, lookupA st.empty_since g = some t →
      t < now - cfg.empty_group_ttl_sec →
      lookupA (sweep cfg st now).groups g = none) ∧
    (∀ g t, lookupA st.empty_since g = some t →
      ¬ t < now - cfg.empty_group_ttl_sec →
      lookupA (sweep cfg st now).groups g = some []) ∧
    (∀ g m, lookupA st.groups g = some m → m ≠ [] →
      (lookupA (sweep cfg st now).groups g).isSome) := by
  have hInv1 : Inv cfg (st.last_seen.foldl
      (sweepStep1 now (now - 3 * cfg.suggested_heartbeat_sec)) st) :=
    foldl_preserve (fun s e hs => inv_sweepStep1 cfg now _ s e hs) _ _ hInv
  have hndES1 : NodupKeys (st.last_seen.foldl
      (sweepStep1 now (now - 3 * cfg.suggested_heartbeat_sec))
      st).empty_since := hInv1.1.2.2.1
  refine ⟨?_, ?_, ?_⟩
  · intro g t hes ht
    have hempty : lookupA st.groups g = some [] :=
      hInv.2.2.2.2.2.2.2.2.1 (g, t) (lookupA_mem hes)
    have hnb : ∀ a, lookupA st.client_group a ≠ some g := by
      intro a ha
      obtain ⟨m2, hm2, ham⟩ := cgLive_elim hInv.2.2.2.1 (lookupA_mem ha)
      rw [hempty] at hm2
      injection hm2 with hm3
      rw [← hm3] at ham
      simp at ham
    obtain ⟨hG1, hE1, _⟩ := pass1_untouched now
      (now - 3 * cfg.suggested_heartbeat_sec) g st.last_seen st hnb
    exact pass2_removes (now - cfg.empty_group_ttl_sec) g t _ _
      (lookupA_mem (hE1.trans hes)) ht (Or.inl (hG1.trans hempty))
  · intro g t hes ht
    have hempty : lookupA st.groups g = some [] :=
      hInv.2.2.2.2.2.2.2.2.1 (g, t) (lookupA_mem hes)
    have hnb : ∀ a, lookupA st.client_group a ≠ some g := by
      intro a ha
      obtain ⟨m2, hm2, ham⟩ := cgLive_elim hInv.2.2.2.1 (lookupA_mem ha)
      rw [hempty] at hm2
      injection hm2 with hm3
      rw [← hm3] at ham
      simp at ham
    obtain ⟨hG1, hE1, _⟩ := pass1_untouched now
      (now - 3 * cfg.suggested_heartbeat_sec) g st.last_seen st hnb
    apply pass2_keeps
    · exact hG1.trans hempty
    · intro t2 ht2
      left
      have hlook := mem_lookupA hndES1 ht2
      rw [hE1, hes] at hlook
      injection hlook with h2
      rw [← h2]
      exact ht
  · intro g m hg hm
    obtain ⟨m3, hG3, hdis⟩ := foldl_preserve
      (sweepStep1_evolution now (now - 3 * cfg.suggested_heartbeat_sec) g
        (lookupA st.empty_since g) m)
      st.last_seen st ⟨m, hg, Or.inl ⟨rfl, rfl⟩⟩
    have hL2 : ∀ t2, (g, t2) ∈ (st.last_seen.foldl
        (sweepStep1 now (now - 3 * cfg.suggested_heartbeat_sec))
        st).empty_since →
        ¬ t2 < now - cfg.empty_group_ttl_sec ∨ m3 ≠ [] := by
      by_cases hm3 : m3 = []
      · intro t2 ht2
        left
        have hlook := mem_lookupA hndES1 ht2
        rcases hdis with ⟨_, hm3m⟩ | hE3
        · exact absurd (hm3m ▸ hm3) hm
        · rw [hE3, if_pos hm3] at hlook
          injection hlook with h2
          rw [← h2]
          intro hcon
          linarith
      · intro t2 _
        right
        exact hm3
    have hkeep : lookupA (sweep cfg st now).groups g = some m3 :=
      pass2_keeps (now - cfg.empty_group_ttl_sec) g m3 _ _ hG3 hL2
    rw [hkeep]
    rfl

/-- A state with two empty groups: `gidX` empty since time 0 (beyond the
default 300-second TTL at time 400) and `gidY` empty since time 350
(within the TTL at time 400). -/
def stTTL : ServerState :=
  { groups := [(gidX, []), (gidY, [])],
    group_creator := [(gidX, addrA), (gidY, addrA)],
    empty_since := [(gidX, 0), (gidY, 350)],
    creator_active_groups := [(addrA, [gidX, gidY])] }

/-- Witness for C7: in a concrete invariant-satisfying state with one
group empty since time 0 and another since time 350, sweeping at time 400
with the default 300-second TTL removes the first and keeps the second. -/
theorem ttl_eviction_witness :
    Inv cfg0 stTTL ∧ (0 : Time) ≤ cfg0.empty_group_ttl_sec ∧
    lookupA (sweep cfg0 stTTL 400).groups gidX = none ∧
    lookupA (sweep cfg0 stTTL 400).groups gidY = some [] := by
  refine ⟨by decide, by decide, ?_, ?_⟩
  · exact (ttl_eviction cfg0 stTTL 400 (by decide) (by decide)).1 gidX 0
      (by decide) (by norm_num [cfg0])
  · exact (ttl_eviction cfg0 stTTL 400 (by decide) (by decide)).2.1 gidY 350
      (by decide) (by norm_num [cfg0])

end UDPRelay
